import Mathlib

/-!
Verification of the connection/session core of `Python/unreal_mcp_server.py`
(the `UnrealConnection` class and its helpers).

The embedding models:
- JSON values (`Json`), Python's `json.dumps` with its default settings
  (ASCII escaping with `\uXXXX` and surrogate pairs, separators `", "` and
  `": "`) as `dumps`, and Python's `json.loads` as `json_loads` (a
  recursive-descent parser over the character list).  JSON numbers are
  modelled as integers; float literals are outside the embedding.
- `UnrealConnection.receive_full_response` as `receive_full_response`,
  operating over the list of byte chunks successively returned by
  `socket.recv` (an empty chunk models the peer closing the socket; an
  exhausted chunk list models a receive timeout).
- The mutable state of a `UnrealConnection` as `Session`, and
  `connect` / `disconnect` / `send_command` as state transformers.  The
  externally determined outcomes (whether the TCP connect succeeds, whether
  the send raises, which bytes arrive, the wall clock) are collected in
  `World`.
- The body of one heartbeat-loop iteration as `heartbeatIteration`.
-/

/-- JSON values, as exchanged on the wire.  Strings are lists of unicode
scalar values; objects keep their entries in insertion order, which is what
Python dicts do.  Numbers are modelled as integers. -/
inductive Json where
  | null
  | bool (b : Bool)
  | num (n : Int)
  | str (s : List Char)
  | arr (xs : List Json)
  | obj (kvs : List (List Char × Json))

instance : Inhabited Json := ⟨Json.null⟩

/-! ### Character classes and digits -/

/-- The whitespace characters JSON itself allows between tokens
(what `json.loads` skips). -/
def isJsonWs (c : Char) : Bool :=
  c = ' ' || c = '\t' || c = '\n' || c = '\r'

/-- The ASCII whitespace characters stripped by Python's `str.strip()`
(space, tab, newline, carriage return, vertical tab, form feed). -/
def isPyWs (c : Char) : Bool :=
  c = ' ' || c = '\t' || c = '\n' || c = '\r' || c.toNat = 11 || c.toNat = 12

def isDigitC (c : Char) : Bool :=
  48 ≤ c.toNat && c.toNat ≤ 57

def digitChar (n : Nat) : Char := Char.ofNat (48 + n)

/-- Lowercase hexadecimal digit, as Python's `%04x` formatting produces. -/
def hexDigitChar (n : Nat) : Char :=
  if n < 10 then Char.ofNat (48 + n) else Char.ofNat (87 + n)

def hexVal (c : Char) : Option Nat :=
  if 48 ≤ c.toNat ∧ c.toNat ≤ 57 then some (c.toNat - 48)
  else if 97 ≤ c.toNat ∧ c.toNat ≤ 102 then some (c.toNat - 87)
  else if 65 ≤ c.toNat ∧ c.toNat ≤ 70 then some (c.toNat - 55)
  else none

/-! ### Serialisation: Python's `json.dumps` with default settings -/

/-- Decimal digits of `n`, most significant first (empty for `n = 0`);
fuel-based so that the kernel can evaluate it. -/
def natToCharsAux : Nat → Nat → List Char
  | 0, _ => []
  | fuel+1, n => if n = 0 then [] else natToCharsAux fuel (n / 10) ++ [digitChar (n % 10)]

def natToChars (n : Nat) : List Char :=
  if n = 0 then ['0'] else natToCharsAux (n + 1) n

def intChars (n : Int) : List Char :=
  if n < 0 then '-' :: natToChars n.natAbs else natToChars n.natAbs

/-- The four lowercase hex digits of `n < 0x10000`. -/
def hex4Chars (n : Nat) : List Char :=
  [hexDigitChar (n / 4096 % 16), hexDigitChar (n / 256 % 16),
   hexDigitChar (n / 16 % 16), hexDigitChar (n % 16)]

/-- How `json.dumps` (with its default `ensure_ascii=True`) renders one
character of a string: short escapes for the classic control characters,
`\uXXXX` for other control and all non-ASCII characters, surrogate pairs
beyond the basic multilingual plane, everything in 0x20..0x7E except `"`
and `\` literally. -/
def escapeChar (c : Char) : List Char :=
  if c = '"' then ['\\', '"']
  else if c = '\\' then ['\\', '\\']
  else if c = '\n' then ['\\', 'n']
  else if c = '\r' then ['\\', 'r']
  else if c = '\t' then ['\\', 't']
  else if c.toNat = 8 then ['\\', 'b']
  else if c.toNat = 12 then ['\\', 'f']
  else if c.toNat < 32 then '\\' :: 'u' :: hex4Chars c.toNat
  else if c.toNat ≤ 126 then [c]
  else if c.toNat ≤ 65535 then '\\' :: 'u' :: hex4Chars c.toNat
  else
    ('\\' :: 'u' :: hex4Chars (55296 + (c.toNat - 65536) / 1024)) ++
      ('\\' :: 'u' :: hex4Chars (56320 + (c.toNat - 65536) % 1024))

def escapeList : List Char → List Char
  | [] => []
  | c :: s => escapeChar c ++ escapeList s

mutual

/-- `json.dumps` with its default settings: item separator `", "`,
key separator `": "`, `ensure_ascii=True`. -/
def dumps : Json → List Char
  | .null => "null".toList
  | .bool true => "true".toList
  | .bool false => "false".toList
  | .num n => intChars n
  | .str s => '"' :: escapeList s ++ ['"']
  | .arr xs => '[' :: dumpsList xs ++ [']']
  | .obj kvs => '\x7b' :: dumpsObj kvs ++ ['\x7d']

def dumpsList : List Json → List Char
  | [] => []
  | [x] => dumps x
  | x :: xs => dumps x ++ ',' :: ' ' :: dumpsList xs

def dumpsObj : List (List Char × Json) → List Char
  | [] => []
  | [(k, v)] => '"' :: escapeList k ++ '"' :: ':' :: ' ' :: dumps v
  | (k, v) :: kvs =>
      ('"' :: escapeList k ++ '"' :: ':' :: ' ' :: dumps v) ++ ',' :: ' ' :: dumpsObj kvs

end

/-! ### Well-formedness: objects whose keys are duplicate-free

A Python dict can never hold two entries with the same key, so every value
that `json.dumps` is actually applied to satisfies this predicate; it is
what makes the decode side of the round-trip the identity. -/

def keyMem : List Char → List (List Char) → Bool
  | _, [] => false
  | k, k1 :: rest => if k1 = k then true else keyMem k rest

def nodupKeys : List (List Char) → Bool
  | [] => true
  | k :: rest => !keyMem k rest && nodupKeys rest

mutual

def jwf : Json → Bool
  | .null => true
  | .bool _ => true
  | .num _ => true
  | .str _ => true
  | .arr xs => jwfList xs
  | .obj kvs => nodupKeys (kvs.map Prod.fst) && jwfObj kvs

def jwfList : List Json → Bool
  | [] => true
  | x :: xs => jwf x && jwfList xs

def jwfObj : List (List Char × Json) → Bool
  | [] => true
  | (_, v) :: kvs => jwf v && jwfObj kvs

end

/-! ### Parsing: Python's `json.loads` -/

def skipWs : List Char → List Char
  | [] => []
  | c :: rest => if isJsonWs c then skipWs rest else c :: rest

/-- Accumulate a run of decimal digits, Horner style, stopping at the first
non-digit (as Python's number regex does). -/
def parseNatAux : List Char → Nat → Nat × List Char
  | [], acc => (acc, [])
  | c :: rest, acc =>
      if isDigitC c then parseNatAux rest (acc * 10 + (c.toNat - 48)) else (acc, c :: rest)

/-- A JSON unsigned integer literal: `0`, or a nonzero leading digit followed
by more digits (JSON forbids leading zeroes). -/
def parseNat : List Char → Option (Nat × List Char)
  | [] => none
  | c :: rest =>
      if isDigitC c then
        if c = '0' then some (0, rest) else some (parseNatAux (c :: rest) 0)
      else none

def escDecode (c : Char) : Option Char :=
  if c = '"' then some '"'
  else if c = '\\' then some '\\'
  else if c = '/' then some '/'
  else if c = 'b' then some (Char.ofNat 8)
  else if c = 'f' then some (Char.ofNat 12)
  else if c = 'n' then some '\n'
  else if c = 'r' then some '\r'
  else if c = 't' then some '\t'
  else none

def hex4 (h1 h2 h3 h4 : Char) : Option Nat :=
  match hexVal h1, hexVal h2, hexVal h3, hexVal h4 with
  | some a, some b, some c, some d => some (a * 4096 + b * 256 + c * 16 + d)
  | _, _, _, _ => none

/-- The body of a JSON string after the opening quote: plain characters,
short escapes, `\uXXXX` (combining surrogate pairs), the closing quote.
Raw control characters are rejected, as `json.loads` does in its default
strict mode.  (Python would accept a *lone* surrogate escape and produce a
lone-surrogate string; such strings are not representable as `List Char`,
so the model rejects them — `dumps` never produces them.)  Fuel-based;
every step consumes at least one character. -/
def parseStringRestF : Nat → List Char → Option (List Char × List Char)
  | 0, _ => none
  | fuel+1, s =>
    match s with
    | [] => none
    | c :: rest =>
      if c = '"' then some ([], rest)
      else if c = '\\' then
        match rest with
        | 'u' :: h1 :: h2 :: h3 :: h4 :: rest3 =>
          match hex4 h1 h2 h3 h4 with
          | none => none
          | some n =>
            if n < 55296 ∨ 57343 < n then
              match parseStringRestF fuel rest3 with
              | some (sv, r) => some (Char.ofNat n :: sv, r)
              | none => none
            else if n ≤ 56319 then
              match rest3 with
              | '\\' :: 'u' :: g1 :: g2 :: g3 :: g4 :: rest4 =>
                match hex4 g1 g2 g3 g4 with
                | some m =>
                  if 56320 ≤ m ∧ m ≤ 57343 then
                    match parseStringRestF fuel rest4 with
                    | some (sv, r) =>
                        some (Char.ofNat (65536 + (n - 55296) * 1024 + (m - 56320)) :: sv, r)
                    | none => none
                  else none
                | none => none
              | _ => none
            else none
        | e :: rest2 =>
          match escDecode e with
          | some d =>
            match parseStringRestF fuel rest2 with
            | some (sv, r) => some (d :: sv, r)
            | none => none
          | none => none
        | [] => none
      else if c.toNat < 32 then none
      else
        match parseStringRestF fuel rest with
        | some (sv, r) => some (c :: sv, r)
        | none => none

def parseStringRest (s : List Char) : Option (List Char × List Char) :=
  parseStringRestF (s.length + 1) s

/-- Insert into an association list the way Python dict assignment does:
replace the value at an existing key in place, otherwise append. -/
def objInsertPy : List (List Char × Json) → List Char → Json → List (List Char × Json)
  | [], k, v => [(k, v)]
  | (k1, v1) :: rest, k, v =>
      if k1 = k then (k1, v) :: rest else (k1, v1) :: objInsertPy rest k v

/-- Build the dict from parsed object entries; on duplicate keys the later
value wins but the key keeps its first position, as in Python. -/
def pyDedup (entries : List (List Char × Json)) : List (List Char × Json) :=
  entries.foldl (fun acc kv => objInsertPy acc kv.1 kv.2) []

mutual

/-- One JSON value, starting exactly at the head of the input (whitespace
already skipped).  The `Nat` argument is recursion fuel; `json_loads`
supplies more than the parser can ever consume. -/
def parseVal : Nat → List Char → Option (Json × List Char)
  | 0, _ => none
  | fuel+1, s =>
    match s with
    | '\x7b' :: rest =>
      match skipWs rest with
      | '\x7d' :: r => some (.obj [], r)
      | s2 =>
        match parseObjElems fuel s2 with
        | some (kvs, r) => some (.obj (pyDedup kvs), r)
        | none => none
    | '[' :: rest =>
      match skipWs rest with
      | ']' :: r => some (.arr [], r)
      | s2 =>
        match parseArrElems fuel s2 with
        | some (xs, r) => some (.arr xs, r)
        | none => none
    | '"' :: rest =>
      match parseStringRest rest with
      | some (sv, r) => some (.str sv, r)
      | none => none
    | 't' :: 'r' :: 'u' :: 'e' :: rest => some (.bool true, rest)
    | 'f' :: 'a' :: 'l' :: 's' :: 'e' :: rest => some (.bool false, rest)
    | 'n' :: 'u' :: 'l' :: 'l' :: rest => some (.null, rest)
    | '-' :: rest =>
      match parseNat rest with
      | some (n, r) => some (.num (-(n : Int)), r)
      | none => none
    | c :: rest =>
      if isDigitC c then
        match parseNat (c :: rest) with
        | some (n, r) => some (.num (n : Int), r)
        | none => none
      else none
    | [] => none

/-- One or more comma-separated array elements followed by `]`. -/
def parseArrElems : Nat → List Char → Option (List Json × List Char)
  | 0, _ => none
  | fuel+1, s =>
    match parseVal fuel s with
    | none => none
    | some (v, r) =>
      match skipWs r with
      | ']' :: rest => some ([v], rest)
      | ',' :: rest =>
        match parseArrElems fuel (skipWs rest) with
        | some (vs, r2) => some (v :: vs, r2)
        | none => none
      | _ => none

/-- One or more comma-separated `"key": value` entries followed by `}`. -/
def parseObjElems : Nat → List Char → Option (List (List Char × Json) × List Char)
  | 0, _ => none
  | fuel+1, s =>
    match s with
    | '"' :: rest =>
      match parseStringRest rest with
      | none => none
      | some (k, r1) =>
        match skipWs r1 with
        | ':' :: r2 =>
          match parseVal fuel (skipWs r2) with
          | none => none
          | some (v, r3) =>
            match skipWs r3 with
            | '\x7d' :: rest2 => some ([(k, v)], rest2)
            | ',' :: rest2 =>
              match parseObjElems fuel (skipWs rest2) with
              | some (kvs, r4) => some ((k, v) :: kvs, r4)
              | none => none
            | _ => none
        | _ => none
    | _ => none

end

/-- `json.loads`: skip surrounding whitespace, parse exactly one value,
reject trailing garbage. -/
def json_loads (s : List Char) : Option Json :=
  match parseVal (s.length + 1) (skipWs s) with
  | some (j, rest) => if skipWs rest = [] then some j else none
  | none => none

/-! ### `receive_full_response`: the newline-framed, heartbeat-skipping
receive loop (lines 102-159 of the source) -/

def kType : List Char := "type".toList
def kHeartbeat : List Char := "heartbeat".toList

def alookup : List (List Char × Json) → List Char → Option Json
  | [], _ => none
  | (k1, v) :: rest, k => if k1 = k then some v else alookup rest k

/-- `isinstance(message, dict) and message.get("type") == "heartbeat"`. -/
def isHeartbeat : Json → Bool
  | .obj kvs =>
    match alookup kvs kType with
    | some (.str s) => s = kHeartbeat
    | _ => false
  | _ => false

/-- `str.split('\n', 1)`: the text before the first newline and the text
after it, or `none` if there is no newline. -/
def splitFirstNL : List Char → Option (List Char × List Char)
  | [] => none
  | c :: rest =>
    if c = '\n' then some ([], rest)
    else
      match splitFirstNL rest with
      | none => none
      | some (a, b) => some (c :: a, b)

/-- Python's `str.strip()` (with ASCII whitespace, which is all that occurs
on this wire). -/
def pystrip (s : List Char) : List Char :=
  ((s.dropWhile isPyWs).reverse.dropWhile isPyWs).reverse

inductive InnerRes where
  | found (m : Json)
  | needMore (buffer : List Char)

/-- The inner `while '\n' in buffer` loop of `receive_full_response`:
split off complete lines, skip blank lines, push unparseable text back onto
the buffer, skip heartbeats, return the first other message.  Fuel-based;
each iteration consumes at least one character of the buffer. -/
def innerLoopF : Nat → List Char → InnerRes
  | 0, buffer => .needMore buffer
  | fuel+1, buffer =>
    match splitFirstNL buffer with
    | none => .needMore buffer
    | some (raw0, rest) =>
      let raw := pystrip raw0
      if raw = [] then innerLoopF fuel rest
      else
        match json_loads raw with
        | none => .needMore (raw ++ (if rest = [] then [] else '\n' :: rest))
        | some m => if isHeartbeat m then innerLoopF fuel rest else .found m

def innerLoop (buffer : List Char) : InnerRes :=
  innerLoopF (buffer.length + 1) buffer

def closedMsg : List Char :=
  "Connection closed before receiving a valid response".toList

def timeoutMsg : List Char :=
  "Timeout receiving Unreal response".toList

/-- The tail of `receive_full_response` once no more data will arrive: a
best-effort parse of the remaining buffer, otherwise the given exception. -/
def finalParse (buffer failMsg : List Char) : Except (List Char) Json :=
  if pystrip buffer = [] then .error failMsg
  else
    match json_loads buffer with
    | some m => .ok m
    | none => .error failMsg

/-- The outer `while True: chunk = sock.recv(...)` loop.  The chunk list
holds what each successive `recv` returns; an empty chunk is a closed
connection, an exhausted list is a `recv` that never returns (a timeout). -/
def recvGo : List (List Char) → List Char → Except (List Char) Json
  | [], buffer => finalParse buffer timeoutMsg
  | chunk :: rest, buffer =>
    if chunk = [] then finalParse buffer closedMsg
    else
      match innerLoop (buffer ++ chunk) with
      | .found m => .ok m
      | .needMore b2 => recvGo rest b2

def receive_full_response (chunks : List (List Char)) : Except (List Char) Json :=
  recvGo chunks []

/-! ### The outbound frame (lines 170-179 of the source) -/

def kCommand : List Char := "command".toList
def kParams : List Char := "params".toList

/-- `json.dumps({"command": command, "params": params}) + '\n'`, the exact
text whose UTF-8 encoding `send_command` writes to the socket. -/
def encode (cmd : List Char) (params : List (List Char × Json)) : List Char :=
  dumps (Json.obj [(kCommand, Json.str cmd), (kParams, Json.obj params)]) ++ ['\n']

/-! ### The `UnrealConnection` state machine -/

def kStatus : List Char := "status".toList
def kError : List Char := "error".toList
def kSuccess : List Char := "success".toList
def kMessage : List Char := "message".toList
def kErrorVal : List Char := "error".toList
def kPing : List Char := "ping".toList
def unknownErrMsg : List Char := "Unknown Unreal error".toList

/-- The mutable fields of a `UnrealConnection` that the send/connect
/disconnect/heartbeat paths read or write.  `socket` is `some ()` when a
socket object is held.  `last_command_error` holds a `Json` because the
code stores whatever value the error normalisation extracted, string or
not. -/
structure Session where
  socket : Option Unit
  connected : Bool
  last_heartbeat : Option Nat
  last_command : Option (List Char)
  last_command_time : Option Nat
  last_command_result : Option Json
  last_command_error : Option Json

/-- The state built by `UnrealConnection.__init__`. -/
def initSession : Session :=
  { socket := none, connected := false, last_heartbeat := none, last_command := none,
    last_command_time := none, last_command_result := none, last_command_error := none }

/-- The environment of one `send_command` call: whether a TCP connect would
succeed, whether `sendall` raises (and with which message), the chunks the
socket then yields, and the current wall-clock time. -/
structure World where
  connectOk : Bool
  sendErr : Option (List Char)
  chunks : List (List Char)
  time : Nat

/-- `UnrealConnection.connect` (lines 54-88): no-op success when already
connected with a live socket; otherwise a fresh socket on success, and a
closed, null socket plus `connected = False` on failure. -/
def connect (s : Session) (ok : Bool) : Bool × Session :=
  if s.connected && s.socket.isSome then (true, s)
  else if ok then (true, { s with connected := true, socket := some () })
  else (false, { s with connected := false, socket := none })

/-- `UnrealConnection.disconnect` (lines 90-100). -/
def disconnect (s : Session) : Session :=
  { s with socket := none, connected := false }

/-- What the write-then-read exchange inside the `try` block produces:
either the exception raised by `sendall` or by `receive_full_response`,
or the received message. -/
def exchangeOutcome (w : World) : Except (List Char) Json :=
  match w.sendErr with
  | some m => .error m
  | none => receive_full_response w.chunks

def pyTruthy : Json → Bool
  | .null => false
  | .bool b => b
  | .num n => n ≠ 0
  | .str s => s ≠ []
  | .arr xs => !xs.isEmpty
  | .obj kvs => !kvs.isEmpty

/-- `response.get("error") or response.get("message", "Unknown Unreal error")`
for an object `response`: the `or` falls through on a missing *or falsy*
"error" value. -/
def errMsgOf (kvs : List (List Char × Json)) : Json :=
  match alookup kvs kError with
  | some v =>
      if pyTruthy v then v
      else
        match alookup kvs kMessage with
        | some w2 => w2
        | none => .str unknownErrMsg
  | none =>
      match alookup kvs kMessage with
      | some w2 => w2
      | none => .str unknownErrMsg

/-- `response.get("status") == "error"`. -/
def statusIsError (kvs : List (List Char × Json)) : Bool :=
  match alookup kvs kStatus with
  | some (.str t) => t = kErrorVal
  | _ => false

/-- `response.get("success") is False`. -/
def successIsFalse (kvs : List (List Char × Json)) : Bool :=
  match alookup kvs kSuccess with
  | some (.bool false) => true
  | _ => false

def Json.isObj : Json → Bool
  | .obj _ => true
  | _ => false

/-- `str(e)` for the `AttributeError` raised by calling `.get` on a
non-dict value (the exact Python quoting of the type name is not
reproduced; only that a nonempty description is produced matters). -/
def noGetMsg (r : Json) : List Char :=
  (match r with
   | .null => "NoneType".toList
   | .bool _ => "bool".toList
   | .num _ => "int".toList
   | .str _ => "str".toList
   | .arr _ => "list".toList
   | .obj _ => "dict".toList) ++ " object has no attribute get".toList

/-- The canonical error response that the `except` block of `send_command`
returns: `{"status": "error", "error": str(e)}`. -/
def errObj (msg : List Char) : Json :=
  .obj [(kStatus, .str kErrorVal), (kError, .str msg)]

/-- The `except Exception as e` block of `send_command` (lines 217-234):
record the failure in the diagnostic fields when tracking, force
`connected = False`, close and discard the socket, return the canonical
error response. -/
def sendExcept (s : Session) (cmd : List Char) (track : Bool) (t : Nat) (msg : List Char) :
    Option Json × Session :=
  let s1 := if track then
      { s with last_command := some cmd, last_command_time := some t,
               last_command_result := none, last_command_error := some (.str msg) }
    else s
  (some (errObj msg), { s1 with connected := false, socket := none })

/-- The `try` block of `send_command` (lines 169-215), entered with the
session connected: run the exchange; on a message, record the tracking
snapshot and normalise the two error shapes; `.get` on a non-dict reply
raises, landing in the `except` block.  In shape (a) the code mutates the
received dict in place, so the tracked `last_command_result` sees the
added "error" key; in shape (b) it rebinds `response`, so the tracked
result keeps the raw reply. -/
def sendBody (s : Session) (cmd : List Char) (track : Bool) (w : World) :
    Option Json × Session :=
  match exchangeOutcome w with
  | .error msg => sendExcept s cmd track w.time msg
  | .ok r =>
    let s1 := if track then
        { s with last_command := some cmd, last_command_time := some w.time,
                 last_command_result := some r, last_command_error := none }
      else s
    match r with
    | .obj kvs =>
      if statusIsError kvs then
        let em := errMsgOf kvs
        let kvs2 := if (alookup kvs kError).isSome then kvs else objInsertPy kvs kError em
        let r2 := Json.obj kvs2
        let s2 := if track then
            { s1 with last_command_result := some r2, last_command_error := some em }
          else s1
        (some r2, s2)
      else if successIsFalse kvs then
        let em := errMsgOf kvs
        let s2 := if track then { s1 with last_command_error := some em } else s1
        (some (Json.obj [(kStatus, .str kErrorVal), (kError, em)]), s2)
      else (some r, s1)
    | _ => sendExcept s1 cmd track w.time (noGetMsg r)

/-- The text of `UnrealConnection.send_command` (lines 161-234), read as
if each statement ran as written: the Python return value (`none` is
Python's `None`) and the new session state.  `params` only affects the
bytes written, not the state transition.  Caution: the disconnected
branch transcribes lines 164-167 (`self.connect()`, `return None`), but
those lines can never complete in the running program — `self.lock`
(line 44) is a non-reentrant `threading.Lock`, held from line 163, and
`connect` re-acquires it at line 56, blocking forever.  `send_commandL`
below is the model with the lock semantics included; the two agree on
every connected call, which is every call that returns. -/
def send_command (s : Session) (cmd : List Char) (params : List (List Char × Json))
    (track : Bool) (w : World) : Option Json × Session :=
  let _payload := encode cmd params
  if s.connected then sendBody s cmd track w
  else
    match connect s w.connectOk with
    | (true, s1) => sendBody s1 cmd track w
    | (false, s1) => (none, s1)

/-- How a `send_command` call ends: it returns a value with the session
in some state, or it never returns. -/
inductive CallOutcome where
  | returns (r : Option Json) (s2 : Session)
  | deadlock

/-- `UnrealConnection.send_command` with the lock semantics included.
`self.lock` (line 44) is a non-reentrant `threading.Lock`; `send_command`
acquires it at line 163 and holds it for the whole body.  A call made
while disconnected reaches `self.connect()` at line 165, and `connect`
opens with `with self.lock:` (line 56): re-acquiring a held non-reentrant
lock blocks the thread forever, so the call never returns and lines
166-234 never run on that path.  A call made while connected never
invokes `connect` and proceeds with the try/except body. -/
def send_commandL (s : Session) (cmd : List Char) (params : List (List Char × Json))
    (track : Bool) (w : World) : CallOutcome :=
  let _payload := encode cmd params
  if s.connected then
    let res := sendBody s cmd track w
    .returns res.1 res.2
  else .deadlock

/-- One iteration of the `_loop` inside `_start_heartbeat` (lines 245-253),
in the case where the stop event did not fire.  The ping goes through
`send_command`, so when the session is disconnected the iteration hangs
inside `connect`'s re-acquisition of the held lock and never completes
(`none`); line 249 never runs there.  When the session is connected,
`send_command` returns a value — its `except` block catches every
exception — so the `except` branch of `_loop` cannot run and line 249
records the timestamp unconditionally, ping failure included. -/
def heartbeatIteration (s : Session) (w : World) : Option Session :=
  if s.connected then
    let res := send_command s kPing [] false w
    some { res.2 with last_heartbeat := some w.time }
  else none

/-- The invariant stated in the spec: the socket is non-null exactly when
`connected` is true. -/
def sessionInv (s : Session) : Prop :=
  s.socket.isSome = s.connected

/-- True when the list does not start with a decimal digit (used to state
that a serialised number is followed by a terminator, so the maximal-munch
number parser stops in the right place). -/
def headNonDigit : List Char → Bool
  | [] => true
  | c :: _ => !isDigitC c

mutual

/-- An upper bound on the recursion fuel `parseVal` consumes while reading
the serialisation of a value (one unit per `parseVal` / `parseArrElems` /
`parseObjElems` call). -/
def jcount : Json → Nat
  | .arr xs => 1 + jcountList xs
  | .obj kvs => 1 + jcountObj kvs
  | _ => 1

def jcountList : List Json → Nat
  | [] => 0
  | x :: xs => 1 + jcount x + jcountList xs

def jcountObj : List (List Char × Json) → Nat
  | [] => 0
  | (_, v) :: kvs => 1 + jcount v + jcountObj kvs

end

/-- The message framing used on the wire in both directions: the JSON text
followed by one newline. -/
def frame (m : Json) : List Char :=
  dumps m ++ ['\n']

/-! ## Basic character lemmas -/

theorem char_toNat_ofNat_lo {n : Nat} (h : n < 55296) : (Char.ofNat n).toNat = n := by
  unfold Char.ofNat
  split
  · rfl
  · next hh => exact absurd (Or.inl h) hh

theorem char_toNat_ofNat_hi {n : Nat} (h1 : 57343 < n) (h2 : n < 1114112) :
    (Char.ofNat n).toNat = n := by
  unfold Char.ofNat
  split
  · rfl
  · next hh => exact absurd (Or.inr ⟨h1, h2⟩) hh

theorem char_eq_of_toNat {c d : Char} (h : c.toNat = d.toNat) : c = d :=
  Char.eq_of_val_eq (UInt32.eq_of_toBitVec_eq (BitVec.eq_of_toNat_eq h))

theorem char_valid (c : Char) : c.toNat < 55296 ∨ (57343 < c.toNat ∧ c.toNat < 1114112) := by
  rcases c.valid with h | ⟨h1, h2⟩
  · exact Or.inl h
  · exact Or.inr ⟨h1, h2⟩

theorem digitChar_toNat {n : Nat} (h : n < 10) : (digitChar n).toNat = 48 + n := by
  unfold digitChar
  exact char_toNat_ofNat_lo (by omega)

theorem isDigitC_digitChar {n : Nat} (h : n < 10) : isDigitC (digitChar n) = true := by
  simp [isDigitC, digitChar_toNat h]
  omega

theorem isDigitC_toNat {c : Char} (h : isDigitC c = true) : 48 ≤ c.toNat ∧ c.toNat ≤ 57 := by
  simpa [isDigitC] using h

/-! ## Decimal digits: `natToChars` round-trips through `parseNat` -/

theorem natToCharsAux_zero : ∀ fuel, natToCharsAux fuel 0 = [] := by
  intro fuel
  cases fuel <;> simp [natToCharsAux]

theorem natToCharsAux_digits :
    ∀ fuel n c, c ∈ natToCharsAux fuel n → isDigitC c = true := by
  intro fuel
  induction fuel with
  | zero => intro n c hc; simp [natToCharsAux] at hc
  | succ f ih =>
    intro n c hc
    by_cases hn : n = 0
    · simp [natToCharsAux, hn] at hc
    · simp only [natToCharsAux, if_neg hn, List.mem_append, List.mem_singleton] at hc
      rcases hc with hc | hc
      · exact ih _ _ hc
      · subst hc; exact isDigitC_digitChar (Nat.mod_lt _ (by omega))

theorem natToChars_digits : ∀ n c, c ∈ natToChars n → isDigitC c = true := by
  intro n c hc
  unfold natToChars at hc
  by_cases hn : n = 0
  · simp [hn] at hc
    subst hc; decide
  · rw [if_neg hn] at hc
    exact natToCharsAux_digits _ _ _ hc

theorem parseNatAux_stop {rest : List Char} (h : headNonDigit rest = true) (acc : Nat) :
    parseNatAux rest acc = (acc, rest) := by
  cases rest with
  | nil => simp [parseNatAux]
  | cons c t =>
    simp only [headNonDigit, Bool.not_eq_true'] at h
    simp [parseNatAux, h]

theorem natToCharsAux_parse :
    ∀ fuel n, n < 10 ^ fuel →
      ∀ acc rest, parseNatAux (natToCharsAux fuel n ++ rest) acc =
        parseNatAux rest (acc * 10 ^ (natToCharsAux fuel n).length + n) := by
  intro fuel
  induction fuel with
  | zero =>
    intro n hn acc rest
    have : n = 0 := by omega
    subst this
    simp [natToCharsAux]
  | succ f ih =>
    intro n hn acc rest
    by_cases h0 : n = 0
    · subst h0; simp [natToCharsAux]
    · have hdiv : n / 10 < 10 ^ f := by
        have hp : (10:Nat) ^ (f+1) = 10 ^ f * 10 := pow_succ 10 f
        rw [hp] at hn
        exact Nat.div_lt_of_lt_mul (by omega)
      simp only [natToCharsAux, if_neg h0, List.append_assoc, List.singleton_append]
      rw [ih _ hdiv]
      have hd : isDigitC (digitChar (n % 10)) = true :=
        isDigitC_digitChar (Nat.mod_lt _ (by omega))
      simp only [parseNatAux, hd, if_pos]
      rw [digitChar_toNat (Nat.mod_lt _ (by omega))]
      congr 1
      simp only [List.length_append, List.length_singleton]
      rw [pow_succ]
      have hmod := Nat.div_add_mod n 10
      set K := (10:Nat) ^ (natToCharsAux f (n / 10)).length with hK
      ring_nf
      omega

theorem natToCharsAux_head :
    ∀ fuel n, 0 < n → n < 10 ^ fuel →
      ∃ c t, natToCharsAux fuel n = c :: t ∧ isDigitC c = true ∧ c ≠ '0' := by
  intro fuel
  induction fuel with
  | zero => intro n h1 h2; omega
  | succ f ih =>
    intro n h1 h2
    have h0 : n ≠ 0 := by omega
    by_cases hq : n / 10 = 0
    · refine ⟨digitChar (n % 10), [], ?_, isDigitC_digitChar (Nat.mod_lt _ (by omega)), ?_⟩
      · simp [natToCharsAux, if_neg h0, hq, natToCharsAux_zero]
      · intro hc
        have := congrArg Char.toNat hc
        rw [digitChar_toNat (Nat.mod_lt _ (by omega))] at this
        have h48 : ('0').toNat = 48 := rfl
        omega
    · have hdiv : n / 10 < 10 ^ f := by
        have hp : (10:Nat) ^ (f+1) = 10 ^ f * 10 := pow_succ 10 f
        rw [hp] at h2
        exact Nat.div_lt_of_lt_mul (by omega)
      obtain ⟨c, t, heq, hdig, hne⟩ := ih (n / 10) (by omega) hdiv
      refine ⟨c, t ++ [digitChar (n % 10)], ?_, hdig, hne⟩
      simp [natToCharsAux, if_neg h0, heq]

theorem natToChars_ne_nil (n : Nat) : natToChars n ≠ [] := by
  unfold natToChars
  by_cases hn : n = 0
  · simp [hn]
  · rw [if_neg hn]
    have hlt : n < 10 ^ (n + 1) :=
      lt_of_lt_of_le (Nat.lt_pow_self (by norm_num) n) (Nat.pow_le_pow_right (by norm_num) (by omega))
    obtain ⟨c, t, heq, _, _⟩ := natToCharsAux_head (n+1) n (by omega) hlt
    simp [heq]

theorem parseNat_natToChars (n : Nat) {rest : List Char} (h : headNonDigit rest = true) :
    parseNat (natToChars n ++ rest) = some (n, rest) := by
  by_cases hn : n = 0
  · subst hn
    have h1 : natToChars 0 = ['0'] := rfl
    rw [h1, List.singleton_append]
    simp [parseNat, show isDigitC '0' = true from rfl]
  · have hlt : n < 10 ^ (n + 1) :=
      lt_of_lt_of_le (Nat.lt_pow_self (by norm_num) n) (Nat.pow_le_pow_right (by norm_num) (by omega))
    obtain ⟨c, t, heq, hdig, hne⟩ := natToCharsAux_head (n+1) n (by omega) hlt
    have hnc : natToChars n = c :: t := by rw [natToChars, if_neg hn, heq]
    rw [hnc, List.cons_append]
    simp only [parseNat, hdig, if_pos, if_neg hne]
    rw [← List.cons_append, ← hnc, natToChars, if_neg hn]
    rw [natToCharsAux_parse (n+1) n hlt 0 rest]
    rw [parseNatAux_stop h]
    simp

/-! ## String escaping round-trips through the string parser -/

theorem hexVal_hexDigitChar : ∀ d < 16, hexVal (hexDigitChar d) = some d := by decide

theorem hex4_hex4Chars {n : Nat} (h : n ≤ 65535) :
    hex4 (hexDigitChar (n / 4096 % 16)) (hexDigitChar (n / 256 % 16))
        (hexDigitChar (n / 16 % 16)) (hexDigitChar (n % 16)) = some n := by
  unfold hex4
  rw [hexVal_hexDigitChar _ (by omega), hexVal_hexDigitChar _ (by omega),
      hexVal_hexDigitChar _ (by omega), hexVal_hexDigitChar _ (by omega)]
  simp only [Option.some.injEq]
  omega

theorem parseStringRestF_quote (fuel : Nat) (rest : List Char) :
    parseStringRestF (fuel+1) ('"' :: rest) = some ([], rest) := by
  simp [parseStringRestF]

theorem parseStringRestF_lit (fuel : Nat) {c : Char} (h1 : ¬c = '"') (h2 : ¬c = '\\')
    (h3 : ¬c.toNat < 32) (T : List Char) :
    parseStringRestF (fuel+1) (c :: T) =
      (match parseStringRestF fuel T with
       | some (sv, r) => some (c :: sv, r)
       | none => none) := by
  simp [parseStringRestF, h1, h2, h3]

theorem parseStringRestF_u (fuel : Nat) {n : Nat} (hv : n < 55296 ∨ 57343 < n)
    (hle : n ≤ 65535) (T : List Char) :
    parseStringRestF (fuel+1) ('\\' :: 'u' :: (hex4Chars n ++ T)) =
      (match parseStringRestF fuel T with
       | some (sv, r) => some (Char.ofNat n :: sv, r)
       | none => none) := by
  simp only [hex4Chars, List.cons_append, List.nil_append]
  simp only [parseStringRestF]
  rw [hex4_hex4Chars hle]
  simp [hv]

theorem parseStringRestF_u_step (fuel : Nat) (a1 a2 a3 a4 : Char) (T : List Char) :
    parseStringRestF (fuel+1) ('\\' :: 'u' :: a1 :: a2 :: a3 :: a4 :: T) =
      (match hex4 a1 a2 a3 a4 with
       | none => none
       | some n =>
         if n < 55296 ∨ 57343 < n then
           match parseStringRestF fuel T with
           | some (sv, r) => some (Char.ofNat n :: sv, r)
           | none => none
         else if n ≤ 56319 then
           match T with
           | '\\' :: 'u' :: g1 :: g2 :: g3 :: g4 :: rest4 =>
             match hex4 g1 g2 g3 g4 with
             | some m =>
               if 56320 ≤ m ∧ m ≤ 57343 then
                 match parseStringRestF fuel rest4 with
                 | some (sv, r) =>
                     some (Char.ofNat (65536 + (n - 55296) * 1024 + (m - 56320)) :: sv, r)
                 | none => none
               else none
             | none => none
           | _ => none
         else none) := rfl

theorem parseStringRestF_surrogate (fuel : Nat) {n : Nat} (h1 : 65536 ≤ n) (h2 : n < 1114112)
    (T : List Char) :
    parseStringRestF (fuel+1) ('\\' :: 'u' :: (hex4Chars (55296 + (n - 65536) / 1024) ++
        ('\\' :: 'u' :: (hex4Chars (56320 + (n - 65536) % 1024) ++ T)))) =
      (match parseStringRestF fuel T with
       | some (sv, r) => some (Char.ofNat n :: sv, r)
       | none => none) := by
  have hmod : (n - 65536) % 1024 < 1024 := Nat.mod_lt _ (by norm_num)
  set hi := 55296 + (n - 65536) / 1024 with hhi
  set lo := 56320 + (n - 65536) % 1024 with hlo
  have hhiB : hi ≤ 56319 := by omega
  have e1 : hex4 (hexDigitChar (hi / 4096 % 16)) (hexDigitChar (hi / 256 % 16))
      (hexDigitChar (hi / 16 % 16)) (hexDigitChar (hi % 16)) = some hi :=
    hex4_hex4Chars (by omega)
  have e2 : hex4 (hexDigitChar (lo / 4096 % 16)) (hexDigitChar (lo / 256 % 16))
      (hexDigitChar (lo / 16 % 16)) (hexDigitChar (lo % 16)) = some lo :=
    hex4_hex4Chars (by omega)
  have hcond1 : ¬(hi < 55296 ∨ 57343 < hi) := by omega
  have hrange : 56320 ≤ lo ∧ lo ≤ 57343 := by omega
  have harith : 65536 + (hi - 55296) * 1024 + (lo - 56320) = n := by
    have := Nat.div_add_mod (n - 65536) 1024
    omega
  simp only [hex4Chars]
  generalize hexDigitChar (hi / 4096 % 16) = a1 at e1 ⊢
  generalize hexDigitChar (hi / 256 % 16) = a2 at e1 ⊢
  generalize hexDigitChar (hi / 16 % 16) = a3 at e1 ⊢
  generalize hexDigitChar (hi % 16) = a4 at e1 ⊢
  generalize hexDigitChar (lo / 4096 % 16) = b1 at e2 ⊢
  generalize hexDigitChar (lo / 256 % 16) = b2 at e2 ⊢
  generalize hexDigitChar (lo / 16 % 16) = b3 at e2 ⊢
  generalize hexDigitChar (lo % 16) = b4 at e2 ⊢
  simp only [List.cons_append, List.nil_append]
  rw [parseStringRestF_u_step fuel a1 a2 a3 a4 ('\\' :: 'u' :: b1 :: b2 :: b3 :: b4 :: T), e1]
  simp [hcond1, hhiB, e2, hrange, harith]

theorem parseStringRestF_escape :
    ∀ s fuel rest, s.length < fuel →
      parseStringRestF fuel (escapeList s ++ '"' :: rest) = some (s, rest) := by
  intro s
  induction s with
  | nil =>
    intro fuel rest hf
    obtain ⟨f, rfl⟩ : ∃ f, fuel = f + 1 := ⟨fuel - 1, by omega⟩
    simpa [escapeList] using parseStringRestF_quote f rest
  | cons c s ih =>
    intro fuel rest hf
    obtain ⟨f, rfl⟩ : ∃ f, fuel = f + 1 := ⟨fuel - 1, by omega⟩
    have hfs : s.length < f := by simpa using Nat.lt_of_succ_lt_succ hf
    have ihT := ih f rest hfs
    simp only [escapeList, List.append_assoc]
    by_cases h1 : c = '"'
    · subst h1
      rw [show escapeChar '"' = ['\\', '"'] from rfl]
      simp [parseStringRestF, escDecode, ihT]
    by_cases h2 : c = '\\'
    · subst h2
      rw [show escapeChar '\\' = ['\\', '\\'] from rfl]
      simp [parseStringRestF, escDecode, ihT]
    by_cases h3 : c = '\n'
    · subst h3
      rw [show escapeChar '\n' = ['\\', 'n'] from rfl]
      simp [parseStringRestF, escDecode, ihT]
    by_cases h4 : c = '\r'
    · subst h4
      rw [show escapeChar '\r' = ['\\', 'r'] from rfl]
      simp [parseStringRestF, escDecode, ihT]
    by_cases h5 : c = '\t'
    · subst h5
      rw [show escapeChar '\t' = ['\\', 't'] from rfl]
      simp [parseStringRestF, escDecode, ihT]
    by_cases h6 : c.toNat = 8
    · have hc : c = Char.ofNat 8 := char_eq_of_toNat (by rw [h6]; rfl)
      subst hc
      rw [show escapeChar (Char.ofNat 8) = ['\\', 'b'] from rfl]
      simp [parseStringRestF, escDecode, ihT]
    by_cases h7 : c.toNat = 12
    · have hc : c = Char.ofNat 12 := char_eq_of_toNat (by rw [h7]; rfl)
      subst hc
      rw [show escapeChar (Char.ofNat 12) = ['\\', 'f'] from rfl]
      simp [parseStringRestF, escDecode, ihT]
    by_cases h8 : c.toNat < 32
    · have hesc : escapeChar c = '\\' :: 'u' :: hex4Chars c.toNat := by
        unfold escapeChar
        rw [if_neg h1, if_neg h2, if_neg h3, if_neg h4, if_neg h5, if_neg h6, if_neg h7,
          if_pos h8]
      rw [hesc, List.cons_append, List.cons_append,
        parseStringRestF_u f (Or.inl (by omega)) (by omega), ihT, Char.ofNat_toNat]
    by_cases h9 : c.toNat ≤ 126
    · have hesc : escapeChar c = [c] := by
        unfold escapeChar
        rw [if_neg h1, if_neg h2, if_neg h3, if_neg h4, if_neg h5, if_neg h6, if_neg h7,
          if_neg h8, if_pos h9]
      rw [hesc, List.singleton_append, parseStringRestF_lit f h1 h2 h8, ihT]
    by_cases h10 : c.toNat ≤ 65535
    · have hesc : escapeChar c = '\\' :: 'u' :: hex4Chars c.toNat := by
        unfold escapeChar
        rw [if_neg h1, if_neg h2, if_neg h3, if_neg h4, if_neg h5, if_neg h6, if_neg h7,
          if_neg h8, if_neg h9, if_pos h10]
      have hvr : c.toNat < 55296 ∨ 57343 < c.toNat := by
        rcases char_valid c with hv | ⟨hv1, _⟩
        · exact Or.inl hv
        · exact Or.inr hv1
      rw [hesc, List.cons_append, List.cons_append,
        parseStringRestF_u f hvr (by omega), ihT, Char.ofNat_toNat]
    · have hbig : 65536 ≤ c.toNat := by
        rcases char_valid c with hv | ⟨hv1, hv2⟩ <;> omega
      have hlt : c.toNat < 1114112 := by
        rcases char_valid c with hv | ⟨hv1, hv2⟩ <;> omega
      have hesc : escapeChar c =
          ('\\' :: 'u' :: hex4Chars (55296 + (c.toNat - 65536) / 1024)) ++
            ('\\' :: 'u' :: hex4Chars (56320 + (c.toNat - 65536) % 1024)) := by
        unfold escapeChar
        rw [if_neg h1, if_neg h2, if_neg h3, if_neg h4, if_neg h5, if_neg h6, if_neg h7,
          if_neg h8, if_neg h9, if_neg h10]
      rw [hesc]
      have hshape :
          (('\\' :: 'u' :: hex4Chars (55296 + (c.toNat - 65536) / 1024)) ++
              ('\\' :: 'u' :: hex4Chars (56320 + (c.toNat - 65536) % 1024))) ++
            (escapeList s ++ '"' :: rest) =
          '\\' :: 'u' :: (hex4Chars (55296 + (c.toNat - 65536) / 1024) ++
            ('\\' :: 'u' :: (hex4Chars (56320 + (c.toNat - 65536) % 1024) ++
              (escapeList s ++ '"' :: rest)))) := by
        simp
      rw [hshape]
      rw [parseStringRestF_surrogate f hbig hlt]
      rw [ihT, Char.ofNat_toNat]

set_option maxHeartbeats 1000000 in
theorem escapeChar_ne_nil (c : Char) : escapeChar c ≠ [] := by
  unfold escapeChar
  split_ifs <;> simp [hex4Chars]

theorem escapeList_length (s : List Char) : s.length ≤ (escapeList s).length := by
  induction s with
  | nil => simp [escapeList]
  | cons c s ih =>
    simp only [escapeList, List.length_append, List.length_cons]
    have h1 : 1 ≤ (escapeChar c).length := by
      cases h : escapeChar c with
      | nil => exact absurd h (escapeChar_ne_nil c)
      | cons a t => simp
    omega

theorem parseStringRest_escape (s rest : List Char) :
    parseStringRest (escapeList s ++ '"' :: rest) = some (s, rest) := by
  unfold parseStringRest
  apply parseStringRestF_escape
  have := escapeList_length s
  simp only [List.length_append, List.length_cons]
  omega

/-! ## Whitespace, strip, and newline-split facts -/

theorem dropWhile_cons_false {p : Char → Bool} {c : Char} (h : p c = false) (l : List Char) :
    List.dropWhile p (c :: l) = c :: l := by
  simp [List.dropWhile, h]

theorem skipWs_cons_of_not_ws {c : Char} (h : isJsonWs c = false) (l : List Char) :
    skipWs (c :: l) = c :: l := by
  simp [skipWs, h]

theorem pystrip_id {c d : Char} {t init : List Char}
    (heq : c :: t = init ++ [d])
    (hc : isPyWs c = false) (hd : isPyWs d = false) : pystrip (c :: t) = c :: t := by
  unfold pystrip
  rw [dropWhile_cons_false hc, heq, List.reverse_append]
  simp only [List.reverse_cons, List.reverse_nil, List.nil_append, List.singleton_append]
  rw [dropWhile_cons_false hd]
  simp

theorem splitFirstNL_no_nl : ∀ {l : List Char}, '\n' ∉ l → splitFirstNL l = none := by
  intro l
  induction l with
  | nil => intro _; rfl
  | cons c t ih =>
    intro h
    have hc : ¬c = '\n' := fun hh => h (by simp [hh])
    have ht : '\n' ∉ t := fun hh => h (by simp [hh])
    simp [splitFirstNL, hc, ih ht]

theorem splitFirstNL_append : ∀ {l : List Char}, '\n' ∉ l →
    ∀ r, splitFirstNL (l ++ '\n' :: r) = some (l, r) := by
  intro l
  induction l with
  | nil => intro _ r; simp [splitFirstNL]
  | cons c t ih =>
    intro h r
    have hc : ¬c = '\n' := fun hh => h (by simp [hh])
    have ht : '\n' ∉ t := fun hh => h (by simp [hh])
    simp [splitFirstNL, hc, ih ht r]

/-! ## Boundary characters of serialised values -/

theorem n_lt_ten_pow (n : Nat) : n < 10 ^ (n + 1) :=
  lt_of_lt_of_le (Nat.lt_pow_self (by norm_num) n)
    (Nat.pow_le_pow_right (by norm_num) (by omega))

theorem natToChars_head (n : Nat) : ∃ c t, natToChars n = c :: t ∧ isDigitC c = true := by
  by_cases hn : n = 0
  · exact ⟨'0', [], by simp [natToChars, hn], by decide⟩
  · obtain ⟨c, t, heq, hd, _⟩ := natToCharsAux_head (n+1) n (by omega) (n_lt_ten_pow n)
    exact ⟨c, t, by simp [natToChars, hn, heq], hd⟩

theorem natToChars_last (n : Nat) : ∃ init d, natToChars n = init ++ [d] ∧ isDigitC d = true := by
  by_cases hn : n = 0
  · exact ⟨[], '0', by simp [natToChars, hn], by decide⟩
  · refine ⟨natToCharsAux n (n / 10), digitChar (n % 10), ?_,
      isDigitC_digitChar (Nat.mod_lt _ (by omega))⟩
    simp [natToChars, natToCharsAux, hn]

theorem char_ne_of_toNat_ne {c d : Char} (h : c.toNat ≠ d.toNat) : c ≠ d :=
  fun hh => h (congrArg Char.toNat hh)

theorem digit_not_special {c : Char} (h : isDigitC c = true) :
    isJsonWs c = false ∧ isPyWs c = false ∧ c ≠ ']' ∧ c ≠ '\x7d' := by
  have hb := isDigitC_toNat h
  have h1 : c ≠ ' ' := char_ne_of_toNat_ne (by rw [show (' ').toNat = 32 from rfl]; omega)
  have h2 : c ≠ '\t' := char_ne_of_toNat_ne (by rw [show ('\t').toNat = 9 from rfl]; omega)
  have h3 : c ≠ '\n' := char_ne_of_toNat_ne (by rw [show ('\n').toNat = 10 from rfl]; omega)
  have h4 : c ≠ '\r' := char_ne_of_toNat_ne (by rw [show ('\r').toNat = 13 from rfl]; omega)
  have h5 : c ≠ ']' := char_ne_of_toNat_ne (by rw [show (']').toNat = 93 from rfl]; omega)
  have h6 : c ≠ '\x7d' := char_ne_of_toNat_ne (by rw [show ('\x7d').toNat = 125 from rfl]; omega)
  refine ⟨by simp [isJsonWs, h1, h2, h3, h4], by simp [isPyWs, h1, h2, h3, h4]; omega, h5, h6⟩

theorem dumps_head (j : Json) : ∃ c t, dumps j = c :: t ∧
    isJsonWs c = false ∧ isPyWs c = false ∧ c ≠ ']' ∧ c ≠ '\x7d' := by
  cases j with
  | null => exact ⟨'n', ['u', 'l', 'l'], by simp [dumps], by decide, by decide, by decide, by decide⟩
  | bool b =>
    cases b with
    | true => exact ⟨'t', ['r', 'u', 'e'], by simp [dumps], by decide, by decide, by decide, by decide⟩
    | false =>
      exact ⟨'f', ['a', 'l', 's', 'e'], by simp [dumps], by decide, by decide, by decide, by decide⟩
  | num n =>
    by_cases hneg : n < 0
    · exact ⟨'-', natToChars n.natAbs, by simp [dumps, intChars, hneg], by decide, by decide,
        by decide, by decide⟩
    · obtain ⟨c, t, heq, hd⟩ := natToChars_head n.natAbs
      obtain ⟨hw1, hw2, hw3, hw4⟩ := digit_not_special hd
      exact ⟨c, t, by simp [dumps, intChars, hneg, heq], hw1, hw2, hw3, hw4⟩
  | str s =>
    exact ⟨'"', escapeList s ++ ['"'], by simp [dumps], by decide, by decide, by decide, by decide⟩
  | arr xs =>
    exact ⟨'[', dumpsList xs ++ [']'], by simp [dumps], by decide, by decide, by decide, by decide⟩
  | obj kvs =>
    exact ⟨'\x7b', dumpsObj kvs ++ ['\x7d'], by simp [dumps], by decide, by decide, by decide,
      by decide⟩

theorem dumps_last (j : Json) : ∃ init d, dumps j = init ++ [d] ∧ isPyWs d = false := by
  cases j with
  | null => exact ⟨['n', 'u', 'l'], 'l', by simp [dumps], by decide⟩
  | bool b =>
    cases b with
    | true => exact ⟨['t', 'r', 'u'], 'e', by simp [dumps], by decide⟩
    | false => exact ⟨['f', 'a', 'l', 's'], 'e', by simp [dumps], by decide⟩
  | num n =>
    obtain ⟨init, d, heq, hd⟩ := natToChars_last n.natAbs
    by_cases hneg : n < 0
    · exact ⟨'-' :: init, d, by simp [dumps, intChars, hneg, heq], (digit_not_special hd).2.1⟩
    · exact ⟨init, d, by simp [dumps, intChars, hneg, heq], (digit_not_special hd).2.1⟩
  | str s => exact ⟨'"' :: escapeList s, '"', by simp [dumps], by decide⟩
  | arr xs => exact ⟨'[' :: dumpsList xs, ']', by simp [dumps], by decide⟩
  | obj kvs => exact ⟨'\x7b' :: dumpsObj kvs, '\x7d', by simp [dumps], by decide⟩

theorem pystrip_dumps (j : Json) : pystrip (dumps j) = dumps j := by
  obtain ⟨c, t, h1, _, hcw, _, _⟩ := dumps_head j
  obtain ⟨init, d, h2, hdw⟩ := dumps_last j
  rw [h1]
  exact pystrip_id (h1 ▸ h2) hcw hdw

theorem skipWs_dumps (j : Json) (r : List Char) : skipWs (dumps j ++ r) = dumps j ++ r := by
  obtain ⟨c, t, h1, hcw, _, _, _⟩ := dumps_head j
  rw [h1, List.cons_append, skipWs_cons_of_not_ws hcw]

/-! ## Every serialised character is printable ASCII (`ensure_ascii`) -/

theorem hexDigitChar_ascii {d : Nat} (h : d < 16) :
    32 ≤ (hexDigitChar d).toNat ∧ (hexDigitChar d).toNat ≤ 126 := by
  unfold hexDigitChar
  by_cases h10 : d < 10
  · rw [if_pos h10, char_toNat_ofNat_lo (by omega)]
    omega
  · rw [if_neg h10, char_toNat_ofNat_lo (by omega)]
    omega

theorem hex4Chars_ascii {n : Nat} {a : Char} (h : a ∈ hex4Chars n) :
    32 ≤ a.toNat ∧ a.toNat ≤ 126 := by
  simp only [hex4Chars, List.mem_cons, List.not_mem_nil, or_false] at h
  rcases h with rfl | rfl | rfl | rfl <;>
    exact hexDigitChar_ascii (Nat.mod_lt _ (by norm_num))

set_option maxHeartbeats 1000000 in
theorem escapeChar_ascii {c a : Char} (h : a ∈ escapeChar c) :
    32 ≤ a.toNat ∧ a.toNat ≤ 126 := by
  unfold escapeChar at h
  split_ifs at h with h1 h2 h3 h4 h5 h6 h7 h8 h9 h10
  · simp only [List.mem_cons, List.not_mem_nil, or_false] at h
    rcases h with rfl | rfl <;> exact ⟨by decide, by decide⟩
  · simp only [List.mem_cons, List.not_mem_nil, or_false] at h
    rcases h with rfl | rfl <;> exact ⟨by decide, by decide⟩
  · simp only [List.mem_cons, List.not_mem_nil, or_false] at h
    rcases h with rfl | rfl <;> exact ⟨by decide, by decide⟩
  · simp only [List.mem_cons, List.not_mem_nil, or_false] at h
    rcases h with rfl | rfl <;> exact ⟨by decide, by decide⟩
  · simp only [List.mem_cons, List.not_mem_nil, or_false] at h
    rcases h with rfl | rfl <;> exact ⟨by decide, by decide⟩
  · simp only [List.mem_cons, List.not_mem_nil, or_false] at h
    rcases h with rfl | rfl <;> exact ⟨by decide, by decide⟩
  · simp only [List.mem_cons, List.not_mem_nil, or_false] at h
    rcases h with rfl | rfl <;> exact ⟨by decide, by decide⟩
  · simp only [List.mem_cons] at h
    rcases h with rfl | rfl | h
    · exact ⟨by decide, by decide⟩
    · exact ⟨by decide, by decide⟩
    · exact hex4Chars_ascii h
  · simp only [List.mem_singleton] at h
    subst h
    omega
  · simp only [List.mem_cons] at h
    rcases h with rfl | rfl | h
    · exact ⟨by decide, by decide⟩
    · exact ⟨by decide, by decide⟩
    · exact hex4Chars_ascii h
  · simp only [List.mem_append, List.mem_cons] at h
    rcases h with (rfl | rfl | h) | (rfl | rfl | h)
    · exact ⟨by decide, by decide⟩
    · exact ⟨by decide, by decide⟩
    · exact hex4Chars_ascii h
    · exact ⟨by decide, by decide⟩
    · exact ⟨by decide, by decide⟩
    · exact hex4Chars_ascii h

theorem escapeList_ascii {s : List Char} {a : Char} (h : a ∈ escapeList s) :
    32 ≤ a.toNat ∧ a.toNat ≤ 126 := by
  induction s with
  | nil => simp [escapeList] at h
  | cons c s ih =>
    simp only [escapeList, List.mem_append] at h
    rcases h with h | h
    · exact escapeChar_ascii h
    · exact ih h

theorem natToChars_ascii {n : Nat} {a : Char} (h : a ∈ natToChars n) :
    32 ≤ a.toNat ∧ a.toNat ≤ 126 := by
  have := isDigitC_toNat (natToChars_digits n a h)
  omega

theorem intChars_ascii {n : Int} {a : Char} (h : a ∈ intChars n) :
    32 ≤ a.toNat ∧ a.toNat ≤ 126 := by
  unfold intChars at h
  split_ifs at h
  · simp only [List.mem_cons] at h
    rcases h with rfl | h
    · exact ⟨by decide, by decide⟩
    · exact natToChars_ascii h
  · exact natToChars_ascii h

theorem objEntry_ascii {k : List Char} {v : Json}
    (ihv : ∀ a ∈ dumps v, 32 ≤ a.toNat ∧ a.toNat ≤ 126) {a : Char}
    (h : a ∈ '"' :: escapeList k ++ '"' :: ':' :: ' ' :: dumps v) :
    32 ≤ a.toNat ∧ a.toNat ≤ 126 := by
  rcases List.mem_cons.mp h with rfl | h2
  · exact ⟨by decide, by decide⟩
  rcases List.mem_append.mp h2 with h3 | h3
  · exact escapeList_ascii h3
  rcases List.mem_cons.mp h3 with rfl | h4
  · exact ⟨by decide, by decide⟩
  rcases List.mem_cons.mp h4 with rfl | h5
  · exact ⟨by decide, by decide⟩
  rcases List.mem_cons.mp h5 with rfl | h6
  · exact ⟨by decide, by decide⟩
  exact ihv a h6

theorem dumps_ascii_all :
    (∀ j : Json, ∀ a ∈ dumps j, 32 ≤ a.toNat ∧ a.toNat ≤ 126) ∧
    (∀ kvs : List (List Char × Json), ∀ a ∈ dumpsObj kvs, 32 ≤ a.toNat ∧ a.toNat ≤ 126) ∧
    (∀ xs : List Json, ∀ a ∈ dumpsList xs, 32 ≤ a.toNat ∧ a.toNat ≤ 126) := by
  apply dumps.mutual_induct
  · intro a ha
    rw [show dumps Json.null = ['n', 'u', 'l', 'l'] from by simp [dumps]] at ha
    fin_cases ha <;> exact ⟨by decide, by decide⟩
  · intro a ha
    rw [show dumps (Json.bool true) = ['t', 'r', 'u', 'e'] from by simp [dumps]] at ha
    fin_cases ha <;> exact ⟨by decide, by decide⟩
  · intro a ha
    rw [show dumps (Json.bool false) = ['f', 'a', 'l', 's', 'e'] from by simp [dumps]] at ha
    fin_cases ha <;> exact ⟨by decide, by decide⟩
  · intro n a ha
    rw [show dumps (Json.num n) = intChars n from by simp [dumps]] at ha
    exact intChars_ascii ha
  · intro s a ha
    rw [show dumps (Json.str s) = '"' :: escapeList s ++ ['"'] from by simp [dumps]] at ha
    simp only [List.cons_append, List.mem_cons, List.mem_append, List.mem_singleton,
      List.not_mem_nil, or_false] at ha
    rcases ha with rfl | h | rfl
    · exact ⟨by decide, by decide⟩
    · exact escapeList_ascii h
    · exact ⟨by decide, by decide⟩
  · intro xs ih a ha
    rw [show dumps (Json.arr xs) = '[' :: dumpsList xs ++ [']'] from by simp [dumps]] at ha
    simp only [List.cons_append, List.mem_cons, List.mem_append, List.mem_singleton,
      List.not_mem_nil, or_false] at ha
    rcases ha with rfl | h | rfl
    · exact ⟨by decide, by decide⟩
    · exact ih a h
    · exact ⟨by decide, by decide⟩
  · intro kvs ih a ha
    rw [show dumps (Json.obj kvs) = '\x7b' :: dumpsObj kvs ++ ['\x7d'] from by simp [dumps]] at ha
    simp only [List.cons_append, List.mem_cons, List.mem_append, List.mem_singleton,
      List.not_mem_nil, or_false] at ha
    rcases ha with rfl | h | rfl
    · exact ⟨by decide, by decide⟩
    · exact ih a h
    · exact ⟨by decide, by decide⟩
  · intro a ha
    simp [dumpsList] at ha
  · intro x ih a ha
    rw [show dumpsList [x] = dumps x from by simp [dumpsList]] at ha
    exact ih a ha
  · intro x xs hne ihx ihxs a ha
    have harr : dumpsList (x :: xs) = dumps x ++ ',' :: ' ' :: dumpsList xs := by
      cases xs with
      | nil => exact absurd rfl hne
      | cons y rest => simp [dumpsList]
    rw [harr] at ha
    simp only [List.mem_append, List.mem_cons] at ha
    rcases ha with h | rfl | rfl | h
    · exact ihx a h
    · exact ⟨by decide, by decide⟩
    · exact ⟨by decide, by decide⟩
    · exact ihxs a h
  · intro a ha
    simp [dumpsObj] at ha
  · intro k v ih a ha
    rw [show dumpsObj [(k, v)] = '"' :: escapeList k ++ '"' :: ':' :: ' ' :: dumps v from by
      simp [dumpsObj]] at ha
    exact objEntry_ascii ih ha
  · intro k v kvs hne ihv ihkvs a ha
    have hobj : dumpsObj ((k, v) :: kvs) =
        ('"' :: escapeList k ++ '"' :: ':' :: ' ' :: dumps v) ++ ',' :: ' ' :: dumpsObj kvs := by
      cases kvs with
      | nil => exact absurd rfl hne
      | cons kv2 rest => simp [dumpsObj]
    rw [hobj] at ha
    rcases List.mem_append.mp ha with h | h
    · exact objEntry_ascii ihv h
    · rcases List.mem_cons.mp h with rfl | h2
      · exact ⟨by decide, by decide⟩
      rcases List.mem_cons.mp h2 with rfl | h3
      · exact ⟨by decide, by decide⟩
      exact ihkvs a h3

theorem dumps_no_nl (j : Json) : '\n' ∉ dumps j := by
  intro h
  have := dumps_ascii_all.1 j _ h
  have h10 : ('\n').toNat = 10 := rfl
  omega

/-! ## Fuel accounting: the parser needs no more fuel than the text length -/

theorem dumps_len_pos (j : Json) : 1 ≤ (dumps j).length := by
  obtain ⟨c, t, heq, _⟩ := dumps_head j
  simp [heq]

theorem jcount_le_all :
    (∀ j : Json, jcount j ≤ (dumps j).length) ∧
    (∀ kvs : List (List Char × Json), jcountObj kvs ≤ (dumpsObj kvs).length + 1) ∧
    (∀ xs : List Json, jcountList xs ≤ (dumpsList xs).length + 1) := by
  apply dumps.mutual_induct
  · simp [jcount, dumps]
  · simp [jcount, dumps]
  · simp [jcount, dumps]
  · intro n
    simpa [jcount] using dumps_len_pos (Json.num n)
  · intro s
    simpa [jcount] using dumps_len_pos (Json.str s)
  · intro xs ih
    simp only [jcount, dumps, List.length_cons, List.length_append, List.length_singleton]
    omega
  · intro kvs ih
    simp only [jcount, dumps, List.length_cons, List.length_append, List.length_singleton]
    omega
  · simp [jcountList, dumpsList]
  · intro x ih
    simp only [jcountList, dumpsList, jcountList.eq_1]
    omega
  · intro x xs hne ihx ihxs
    have harr : dumpsList (x :: xs) = dumps x ++ ',' :: ' ' :: dumpsList xs := by
      cases xs with
      | nil => exact absurd rfl hne
      | cons y rest => simp [dumpsList]
    rw [harr]
    simp only [jcountList, List.length_append, List.length_cons]
    omega
  · simp [jcountObj, dumpsObj]
  · intro k v ih
    simp only [jcountObj, dumpsObj, jcountObj.eq_1, List.length_cons, List.length_append]
    omega
  · intro k v kvs hne ihv ihkvs
    have hobj : dumpsObj ((k, v) :: kvs) =
        ('"' :: escapeList k ++ '"' :: ':' :: ' ' :: dumps v) ++ ',' :: ' ' :: dumpsObj kvs := by
      cases kvs with
      | nil => exact absurd rfl hne
      | cons kv2 rest => simp [dumpsObj]
    rw [hobj]
    simp only [jcountObj, List.length_append, List.length_cons]
    omega

/-! ## Duplicate-free keys survive the dict rebuild -/

theorem keyMem_eq_false {k : List Char} : ∀ {l : List (List Char)},
    keyMem k l = false ↔ k ∉ l := by
  intro l
  induction l with
  | nil => simp [keyMem]
  | cons k1 rest ih =>
    by_cases h : k1 = k
    · subst h
      simp [keyMem]
    · rw [show keyMem k (k1 :: rest) = keyMem k rest from by simp [keyMem, h], ih]
      simp only [List.mem_cons]
      constructor
      · intro hnr hor
        rcases hor with rfl | hm
        · exact h rfl
        · exact hnr hm
      · intro hno hm
        exact hno (Or.inr hm)

theorem objInsertPy_append {k : List Char} {v : Json} :
    ∀ {kvs : List (List Char × Json)}, keyMem k (kvs.map Prod.fst) = false →
      objInsertPy kvs k v = kvs ++ [(k, v)] := by
  intro kvs
  induction kvs with
  | nil => intro _; rfl
  | cons kv1 rest ih =>
    intro h
    obtain ⟨k1, v1⟩ := kv1
    simp only [List.map_cons, keyMem] at h
    by_cases hk : k1 = k
    · rw [if_pos hk] at h
      exact absurd h (by simp)
    · rw [if_neg hk] at h
      simp [objInsertPy, hk, ih h]

theorem pyDedup_fold :
    ∀ (entries acc : List (List Char × Json)),
      nodupKeys (entries.map Prod.fst) = true →
      (∀ k2 ∈ entries.map Prod.fst, keyMem k2 (acc.map Prod.fst) = false) →
      List.foldl (fun acc2 kv => objInsertPy acc2 kv.1 kv.2) acc entries = acc ++ entries := by
  intro entries
  induction entries with
  | nil => intro acc _ _; simp
  | cons kv rest ih =>
    intro acc hnd hdisj
    obtain ⟨k, v⟩ := kv
    simp only [List.map_cons, nodupKeys, Bool.and_eq_true, Bool.not_eq_true'] at hnd
    obtain ⟨hkm, hnd2⟩ := hnd
    have hdisj2 : ∀ k2 ∈ rest.map Prod.fst,
        keyMem k2 ((acc ++ [(k, v)]).map Prod.fst) = false := by
      intro k2 hk2
      have h1 : keyMem k2 (acc.map Prod.fst) = false := hdisj k2 (by simp [hk2])
      have h2 : k2 ≠ k := by
        intro hh
        subst hh
        exact (keyMem_eq_false.mp hkm) hk2
      rw [keyMem_eq_false] at h1 ⊢
      intro hmem
      simp only [List.map_append, List.map_cons, List.map_nil, List.mem_append,
        List.mem_singleton] at hmem
      rcases hmem with hm | rfl
      · exact h1 hm
      · exact h2 rfl
    have hins : objInsertPy acc k v = acc ++ [(k, v)] :=
      objInsertPy_append (hdisj k (by simp only [List.map_cons]; exact List.mem_cons_self _ _))
    simp only [List.foldl_cons]
    rw [hins, ih (acc ++ [(k, v)]) hnd2 hdisj2]
    simp

theorem pyDedup_self {kvs : List (List Char × Json)}
    (h : nodupKeys (kvs.map Prod.fst) = true) : pyDedup kvs = kvs := by
  unfold pyDedup
  rw [pyDedup_fold kvs [] h (by intro k2 _; rfl)]
  simp

/-! ## One-step unfolding of the parser (definitional) -/

theorem pv_null (pf : Nat) (rest : List Char) :
    parseVal (pf+1) ('n' :: 'u' :: 'l' :: 'l' :: rest) = some (.null, rest) := rfl

theorem pv_true (pf : Nat) (rest : List Char) :
    parseVal (pf+1) ('t' :: 'r' :: 'u' :: 'e' :: rest) = some (.bool true, rest) := rfl

theorem pv_false (pf : Nat) (rest : List Char) :
    parseVal (pf+1) ('f' :: 'a' :: 'l' :: 's' :: 'e' :: rest) = some (.bool false, rest) := rfl

theorem pv_lbracket (pf : Nat) (T : List Char) :
    parseVal (pf+1) ('[' :: T) =
      (match skipWs T with
       | ']' :: r => some (.arr [], r)
       | s2 =>
         match parseArrElems pf s2 with
         | some (xs, r) => some (.arr xs, r)
         | none => none) := rfl

theorem pv_lbrace (pf : Nat) (T : List Char) :
    parseVal (pf+1) ('\x7b' :: T) =
      (match skipWs T with
       | '\x7d' :: r => some (.obj [], r)
       | s2 =>
         match parseObjElems pf s2 with
         | some (kvs, r) => some (.obj (pyDedup kvs), r)
         | none => none) := rfl

theorem pv_quote (pf : Nat) (T : List Char) :
    parseVal (pf+1) ('"' :: T) =
      (match parseStringRest T with
       | some (sv, r) => some (.str sv, r)
       | none => none) := rfl

theorem pv_minus (pf : Nat) (T : List Char) :
    parseVal (pf+1) ('-' :: T) =
      (match parseNat T with
       | some (n, r) => some (.num (-(n : Int)), r)
       | none => none) := rfl

theorem pae_unfold (pf : Nat) (s : List Char) :
    parseArrElems (pf+1) s =
      (match parseVal pf s with
       | none => none
       | some (v, r) =>
         match skipWs r with
         | ']' :: rest => some ([v], rest)
         | ',' :: rest =>
           match parseArrElems pf (skipWs rest) with
           | some (vs, r2) => some (v :: vs, r2)
           | none => none
         | _ => none) := rfl

theorem poe_quote (pf : Nat) (T : List Char) :
    parseObjElems (pf+1) ('"' :: T) =
      (match parseStringRest T with
       | none => none
       | some (k, r1) =>
         match skipWs r1 with
         | ':' :: r2 =>
           match parseVal pf (skipWs r2) with
           | none => none
           | some (v, r3) =>
             match skipWs r3 with
             | '\x7d' :: rest2 => some ([(k, v)], rest2)
             | ',' :: rest2 =>
               match parseObjElems pf (skipWs rest2) with
               | some (kvs, r4) => some ((k, v) :: kvs, r4)
               | none => none
             | _ => none
         | _ => none) := rfl

theorem char_eq_ofNat {c : Char} {n : Nat} (h : c.toNat = n) (hv : n < 55296) :
    c = Char.ofNat n :=
  char_eq_of_toNat (by rw [h, char_toNat_ofNat_lo hv])

theorem parseVal_digit {pf : Nat} {c : Char} (h : isDigitC c = true) (rest : List Char) :
    parseVal (pf+1) (c :: rest) =
      (match parseNat (c :: rest) with
       | some (n, r) => some (.num (n : Int), r)
       | none => none) := by
  have hb := isDigitC_toNat h
  have hcase : c.toNat = 48 ∨ c.toNat = 49 ∨ c.toNat = 50 ∨ c.toNat = 51 ∨ c.toNat = 52 ∨
      c.toNat = 53 ∨ c.toNat = 54 ∨ c.toNat = 55 ∨ c.toNat = 56 ∨ c.toNat = 57 := by omega
  rcases hcase with hc | hc | hc | hc | hc | hc | hc | hc | hc | hc <;>
    rw [char_eq_ofNat hc (by omega)] <;> rfl

theorem skipWs_space (X : List Char) : skipWs (' ' :: X) = skipWs X := by
  simp [skipWs, isJsonWs]

theorem dumpsList_cons_head (x : Json) (xs : List Json) :
    ∃ t, dumpsList (x :: xs) = dumps x ++ t := by
  cases xs with
  | nil => exact ⟨[], by simp [dumpsList]⟩
  | cons y ys => exact ⟨',' :: ' ' :: dumpsList (y :: ys), by simp [dumpsList]⟩

theorem dumpsObj_cons_head (k : List Char) (v : Json) (kvs : List (List Char × Json)) :
    ∃ t, dumpsObj ((k, v) :: kvs) = '"' :: t := by
  cases kvs with
  | nil => exact ⟨escapeList k ++ '"' :: ':' :: ' ' :: dumps v, by simp [dumpsObj]⟩
  | cons kv2 rest =>
    exact ⟨(escapeList k ++ '"' :: ':' :: ' ' :: dumps v) ++ ',' :: ' ' :: dumpsObj (kv2 :: rest),
      by simp [dumpsObj]⟩

/-- The heart of the framing round-trip: parsing the serialisation of a
well-formed value, followed by any non-digit continuation, returns exactly
that value, provided the fuel covers the value's node count. -/
theorem parse_roundtrip : ∀ pf : Nat,
    (∀ (j : Json) (rest : List Char), jwf j = true → jcount j ≤ pf →
      headNonDigit rest = true → parseVal pf (dumps j ++ rest) = some (j, rest)) ∧
    (∀ (xs : List Json) (rest : List Char), xs ≠ [] → jwfList xs = true →
      jcountList xs ≤ pf → parseArrElems pf (dumpsList xs ++ ']' :: rest) = some (xs, rest)) ∧
    (∀ (kvs : List (List Char × Json)) (rest : List Char), kvs ≠ [] → jwfObj kvs = true →
      jcountObj kvs ≤ pf → parseObjElems pf (dumpsObj kvs ++ '\x7d' :: rest) = some (kvs, rest)) := by
  intro pf
  induction pf with
  | zero =>
    refine ⟨?_, ?_, ?_⟩
    · intro j rest _ hc _
      have h1 : 1 ≤ jcount j := by cases j <;> simp [jcount]
      omega
    · intro xs rest hne _ hc
      cases xs with
      | nil => exact absurd rfl hne
      | cons x xs2 => simp [jcountList] at hc
    · intro kvs rest hne _ hc
      cases kvs with
      | nil => exact absurd rfl hne
      | cons kv kvs2 =>
        obtain ⟨k, v⟩ := kv
        simp [jcountObj] at hc
  | succ pf ih =>
    obtain ⟨ihV, ihA, ihO⟩ := ih
    refine ⟨?_, ?_, ?_⟩
    · intro j rest hwf hc hnd
      cases j with
      | null =>
        rw [show dumps Json.null = ['n', 'u', 'l', 'l'] from by simp [dumps]]
        exact pv_null pf rest
      | bool b =>
        cases b with
        | true =>
          rw [show dumps (Json.bool true) = ['t', 'r', 'u', 'e'] from by simp [dumps]]
          exact pv_true pf rest
        | false =>
          rw [show dumps (Json.bool false) = ['f', 'a', 'l', 's', 'e'] from by simp [dumps]]
          exact pv_false pf rest
      | num n =>
        rw [show dumps (Json.num n) = intChars n from by simp [dumps]]
        unfold intChars
        by_cases hneg : n < 0
        · rw [if_pos hneg, List.cons_append, pv_minus, parseNat_natToChars _ hnd]
          try dsimp only
          have hval : -((n.natAbs : Nat) : Int) = n := by omega
          rw [hval]
        · rw [if_neg hneg]
          obtain ⟨c, t, heq, hd⟩ := natToChars_head n.natAbs
          rw [heq, List.cons_append, parseVal_digit hd, ← List.cons_append, ← heq,
            parseNat_natToChars _ hnd]
          try dsimp only
          have hval : ((n.natAbs : Nat) : Int) = n := by omega
          rw [hval]
      | str s =>
        rw [show dumps (Json.str s) = '"' :: escapeList s ++ ['"'] from by simp [dumps]]
        have hsh : ('"' :: escapeList s ++ ['"']) ++ rest =
            '"' :: (escapeList s ++ '"' :: rest) := by simp
        rw [hsh, pv_quote, parseStringRest_escape]
      | arr xs =>
        rw [show dumps (Json.arr xs) = '[' :: dumpsList xs ++ [']'] from by simp [dumps]]
        cases xs with
        | nil =>
          have hsh : ('[' :: dumpsList ([] : List Json) ++ [']']) ++ rest =
              '[' :: (']' :: rest) := by simp [dumpsList]
          rw [hsh, pv_lbracket, skipWs_cons_of_not_ws (by decide)]
          rfl
        | cons x xs2 =>
          have hwfl : jwfList (x :: xs2) = true := by simpa [jwf] using hwf
          have hcl : jcountList (x :: xs2) ≤ pf := by
            have hj : jcount (Json.arr (x :: xs2)) = 1 + jcountList (x :: xs2) := by
              simp [jcount]
            omega
          obtain ⟨tl, htl⟩ := dumpsList_cons_head x xs2
          have hsh : ('[' :: dumpsList (x :: xs2) ++ [']']) ++ rest =
              '[' :: (dumpsList (x :: xs2) ++ ']' :: rest) := by simp
          rw [hsh, pv_lbracket]
          have hskip : skipWs (dumpsList (x :: xs2) ++ ']' :: rest) =
              dumpsList (x :: xs2) ++ ']' :: rest := by
            rw [htl, List.append_assoc]
            exact skipWs_dumps x _
          rw [hskip]
          split
          · rename_i r heq
            exfalso
            obtain ⟨c0, t0, hx, _, _, hner, _⟩ := dumps_head x
            rw [htl, hx] at heq
            simp only [List.cons_append, List.append_assoc] at heq
            injection heq with h1 _
            exact hner h1
          · rw [ihA (x :: xs2) rest (by simp) hwfl hcl]
      | obj kvs =>
        rw [show dumps (Json.obj kvs) = '\x7b' :: dumpsObj kvs ++ ['\x7d'] from by simp [dumps]]
        cases kvs with
        | nil =>
          have hsh : ('\x7b' :: dumpsObj ([] : List (List Char × Json)) ++ ['\x7d']) ++ rest =
              '\x7b' :: ('\x7d' :: rest) := by simp [dumpsObj]
          rw [hsh, pv_lbrace, skipWs_cons_of_not_ws (by decide)]
          rfl
        | cons kv kvs2 =>
          obtain ⟨k, v⟩ := kv
          have hwfparts : nodupKeys (((k, v) :: kvs2).map Prod.fst) = true ∧
              jwfObj ((k, v) :: kvs2) = true := by
            simpa [jwf, Bool.and_eq_true] using hwf
          have hco : jcountObj ((k, v) :: kvs2) ≤ pf := by
            have hj : jcount (Json.obj ((k, v) :: kvs2)) = 1 + jcountObj ((k, v) :: kvs2) := by
              simp [jcount]
            omega
          obtain ⟨tl, htl⟩ := dumpsObj_cons_head k v kvs2
          have hsh : ('\x7b' :: dumpsObj ((k, v) :: kvs2) ++ ['\x7d']) ++ rest =
              '\x7b' :: (dumpsObj ((k, v) :: kvs2) ++ '\x7d' :: rest) := by simp
          rw [hsh, pv_lbrace]
          have hskip : skipWs (dumpsObj ((k, v) :: kvs2) ++ '\x7d' :: rest) =
              dumpsObj ((k, v) :: kvs2) ++ '\x7d' :: rest := by
            rw [htl, List.cons_append]
            exact skipWs_cons_of_not_ws (by decide) _
          rw [hskip]
          split
          · rename_i r heq
            exfalso
            rw [htl] at heq
            simp only [List.cons_append] at heq
            injection heq with h1 _
            exact absurd h1 (by decide)
          · rw [ihO ((k, v) :: kvs2) rest (by simp) hwfparts.2 hco]
            try dsimp only
            rw [pyDedup_self hwfparts.1]
    · intro xs rest hne hwfl hcl
      cases xs with
      | nil => exact absurd rfl hne
      | cons x xs2 =>
        have hwx : jwf x = true ∧ jwfList xs2 = true := by
          simpa [jwfList, Bool.and_eq_true] using hwfl
        cases xs2 with
        | nil =>
          rw [show dumpsList [x] = dumps x from by simp [dumpsList]]
          have hcx : jcount x ≤ pf := by
            simp only [jcountList] at hcl
            omega
          rw [pae_unfold, ihV x (']' :: rest) hwx.1 hcx rfl]
          dsimp only
          rw [skipWs_cons_of_not_ws (by decide)]
          rfl
        | cons y ys =>
          rw [show dumpsList (x :: y :: ys) = dumps x ++ ',' :: ' ' :: dumpsList (y :: ys) from by
            simp [dumpsList]]
          have hcx : jcount x ≤ pf := by
            simp only [jcountList] at hcl
            omega
          have hcys : jcountList (y :: ys) ≤ pf := by
            simp only [jcountList] at hcl ⊢
            omega
          have hsh : (dumps x ++ ',' :: ' ' :: dumpsList (y :: ys)) ++ ']' :: rest =
              dumps x ++ (',' :: ' ' :: (dumpsList (y :: ys) ++ ']' :: rest)) := by simp
          rw [hsh, pae_unfold,
            ihV x (',' :: ' ' :: (dumpsList (y :: ys) ++ ']' :: rest)) hwx.1 hcx rfl]
          dsimp only
          rw [skipWs_cons_of_not_ws (by decide)]
          split
          · rename_i r heq
            simp at heq
          · rename_i r heq
            injection heq with h1 h2
            subst h2
            rw [skipWs_space]
            obtain ⟨tl, htl⟩ := dumpsList_cons_head y ys
            have hskip : skipWs (dumpsList (y :: ys) ++ ']' :: rest) =
                dumpsList (y :: ys) ++ ']' :: rest := by
              rw [htl, List.append_assoc]
              exact skipWs_dumps y _
            rw [hskip, ihA (y :: ys) rest (by simp) hwx.2 hcys]
          · rename_i hn1 hn2
            exact absurd rfl (hn2 (' ' :: (dumpsList (y :: ys) ++ ']' :: rest)))
    · intro kvs rest hne hwfo hco
      cases kvs with
      | nil => exact absurd rfl hne
      | cons kv kvs2 =>
        obtain ⟨k, v⟩ := kv
        have hwv : jwf v = true ∧ jwfObj kvs2 = true := by
          simpa [jwfObj, Bool.and_eq_true] using hwfo
        have hcv : jcount v ≤ pf := by
          simp only [jcountObj] at hco
          omega
        cases kvs2 with
        | nil =>
          rw [show dumpsObj [(k, v)] = '"' :: escapeList k ++ '"' :: ':' :: ' ' :: dumps v from by
            simp [dumpsObj]]
          have hsh : ('"' :: escapeList k ++ '"' :: ':' :: ' ' :: dumps v) ++ '\x7d' :: rest =
              '"' :: (escapeList k ++ '"' :: (':' :: ' ' :: (dumps v ++ '\x7d' :: rest))) := by
            simp
          rw [hsh, poe_quote, parseStringRest_escape]
          dsimp only
          rw [skipWs_cons_of_not_ws (by decide)]
          split
          · rename_i r2 heq
            injection heq with h1 h2
            subst h2
            rw [skipWs_space, skipWs_dumps v ('\x7d' :: rest),
              ihV v ('\x7d' :: rest) hwv.1 hcv rfl]
            dsimp only
            rw [skipWs_cons_of_not_ws (by decide)]
            rfl
          · rename_i hncolon
            exact absurd rfl (hncolon (' ' :: (dumps v ++ '\x7d' :: rest)))
        | cons kv2 rest2 =>
          rw [show dumpsObj ((k, v) :: kv2 :: rest2) =
              ('"' :: escapeList k ++ '"' :: ':' :: ' ' :: dumps v) ++
                ',' :: ' ' :: dumpsObj (kv2 :: rest2) from by simp [dumpsObj]]
          have hco2 : jcountObj (kv2 :: rest2) ≤ pf := by
            obtain ⟨k2, v2⟩ := kv2
            simp only [jcountObj] at hco ⊢
            omega
          have hsh : (('"' :: escapeList k ++ '"' :: ':' :: ' ' :: dumps v) ++
                ',' :: ' ' :: dumpsObj (kv2 :: rest2)) ++ '\x7d' :: rest =
              '"' :: (escapeList k ++ '"' :: (':' :: ' ' :: (dumps v ++
                (',' :: ' ' :: (dumpsObj (kv2 :: rest2) ++ '\x7d' :: rest))))) := by
            simp
          rw [hsh, poe_quote, parseStringRest_escape]
          dsimp only
          rw [skipWs_cons_of_not_ws (by decide)]
          split
          · rename_i r2 heq
            injection heq with h1 h2
            subst h2
            rw [skipWs_space, skipWs_dumps v _,
              ihV v (',' :: ' ' :: (dumpsObj (kv2 :: rest2) ++ '\x7d' :: rest)) hwv.1 hcv rfl]
            dsimp only
            rw [skipWs_cons_of_not_ws (by decide)]
            split
            · rename_i r3 heq2
              simp at heq2
            · rename_i r3 heq2
              injection heq2 with h3 h4
              subst h4
              rw [skipWs_space]
              obtain ⟨k2, v2⟩ := kv2
              obtain ⟨tl, htl⟩ := dumpsObj_cons_head k2 v2 rest2
              have hskip : skipWs (dumpsObj ((k2, v2) :: rest2) ++ '\x7d' :: rest) =
                  dumpsObj ((k2, v2) :: rest2) ++ '\x7d' :: rest := by
                rw [htl, List.cons_append]
                exact skipWs_cons_of_not_ws (by decide) _
              rw [hskip, ihO ((k2, v2) :: rest2) rest (by simp) hwv.2 hco2]
            · rename_i hn1 hn2
              exact absurd rfl (hn2 (' ' :: (dumpsObj (kv2 :: rest2) ++ '\x7d' :: rest)))
          · rename_i hncolon
            exact absurd rfl
              (hncolon (' ' :: (dumps v ++ (',' :: ' ' :: (dumpsObj (kv2 :: rest2) ++
                '\x7d' :: rest)))))

/-! ## `json.loads` inverts `json.dumps` -/

theorem dumps_ne_nil (j : Json) : dumps j ≠ [] := by
  obtain ⟨c, t, heq, _⟩ := dumps_head j
  simp [heq]

theorem json_loads_dumps {j : Json} (h : jwf j = true) : json_loads (dumps j) = some j := by
  unfold json_loads
  obtain ⟨c, t, heq, hws, _, _, _⟩ := dumps_head j
  have hskip : skipWs (dumps j) = dumps j := by
    rw [heq]
    exact skipWs_cons_of_not_ws hws _
  rw [hskip]
  have hpf : jcount j ≤ (dumps j).length + 1 := le_trans (jcount_le_all.1 j) (by omega)
  have hrt := (parse_roundtrip ((dumps j).length + 1)).1 j [] h hpf rfl
  rw [List.append_nil] at hrt
  rw [hrt]
  simp [skipWs]

/-! ## The receive loop on framed messages -/

theorem frame_ne_nil (m : Json) : frame m ≠ [] := by simp [frame]

theorem frame_len_pos (m : Json) : 1 ≤ (frame m).length := by simp [frame]

theorem splitFirstNL_frame (m : Json) (rest : List Char) :
    splitFirstNL (frame m ++ rest) = some (dumps m, rest) := by
  have hsh : frame m ++ rest = dumps m ++ '\n' :: rest := by simp [frame]
  rw [hsh]
  exact splitFirstNL_append (dumps_no_nl m) rest

theorem innerLoopF_frame {m : Json} (hwf : jwf m = true) (fuel : Nat) (rest : List Char) :
    innerLoopF (fuel+1) (frame m ++ rest) =
      (if isHeartbeat m = true then innerLoopF fuel rest else .found m) := by
  have hne : ¬(dumps m = []) := dumps_ne_nil m
  simp only [innerLoopF, splitFirstNL_frame m rest, pystrip_dumps, hne, if_false,
    json_loads_dumps hwf]

theorem frames_join_len (hbs : List Json) : hbs.length ≤ ((hbs.map frame).join).length := by
  induction hbs with
  | nil => simp
  | cons m hbs ih =>
    have hsh : ((m :: hbs).map frame).join = frame m ++ (hbs.map frame).join := rfl
    rw [hsh]
    simp only [List.length_append, List.length_cons]
    have := frame_len_pos m
    omega

theorem innerLoopF_heartbeats :
    ∀ (hbs : List Json) (fuel : Nat) (r : Json) (rest : List Char),
      (∀ h ∈ hbs, jwf h = true ∧ isHeartbeat h = true) →
      jwf r = true → isHeartbeat r = false → hbs.length < fuel →
      innerLoopF fuel ((hbs.map frame).join ++ (frame r ++ rest)) = .found r := by
  intro hbs
  induction hbs with
  | nil =>
    intro fuel r rest _ hwr hr hf
    obtain ⟨f, rfl⟩ : ∃ f, fuel = f + 1 := ⟨fuel - 1, by omega⟩
    simp only [List.map_nil, List.join_nil, List.nil_append]
    rw [innerLoopF_frame hwr f rest, if_neg (by simp [hr])]
  | cons m hbs ih =>
    intro fuel r rest hh hwr hr hf
    obtain ⟨f, rfl⟩ : ∃ f, fuel = f + 1 := ⟨fuel - 1, by omega⟩
    have hm := hh m (by simp)
    have hsh : ((m :: hbs).map frame).join ++ (frame r ++ rest) =
        frame m ++ ((hbs.map frame).join ++ (frame r ++ rest)) := by
      simp [List.join]
    rw [hsh, innerLoopF_frame hm.1 f _, if_pos hm.2]
    exact ih f r rest (fun h2 hmem => hh h2 (by simp [hmem])) hwr hr
      (by simpa using Nat.lt_of_succ_lt_succ hf)

/-- Heartbeat transparency of `receive_full_response`: a chunk holding any
number of framed heartbeats followed by one framed real message yields
exactly that message. -/
theorem receive_heartbeats (hbs : List Json) (r : Json)
    (hh : ∀ h ∈ hbs, jwf h = true ∧ isHeartbeat h = true)
    (hwr : jwf r = true) (hr : isHeartbeat r = false) :
    receive_full_response [(hbs.map frame).join ++ frame r] = .ok r := by
  unfold receive_full_response
  have hchunk : (hbs.map frame).join ++ frame r ≠ [] := by
    intro h
    have := frame_ne_nil r
    rcases List.append_eq_nil.mp h with ⟨_, h2⟩
    exact this h2
  simp only [recvGo, hchunk, if_false, List.nil_append]
  have hlen : hbs.length < ((hbs.map frame).join ++ frame r).length + 1 := by
    have h1 := frames_join_len hbs
    simp only [List.length_append]
    omega
  have hshape : (hbs.map frame).join ++ frame r =
      (hbs.map frame).join ++ (frame r ++ []) := by simp
  unfold innerLoop
  rw [hshape, innerLoopF_heartbeats hbs _ r [] hh hwr hr (by simpa using hlen)]

/-- A single complete frame in one chunk is decoded and returned. -/
theorem receive_single (m : Json) (hwf : jwf m = true) (hm : isHeartbeat m = false) :
    receive_full_response [frame m] = .ok m := by
  have := receive_heartbeats [] m (by simp) hwf hm
  simpa using this

theorem innerLoop_frame {m : Json} (hwf : jwf m = true) (hm : isHeartbeat m = false) :
    innerLoop (frame m) = .found m := by
  unfold innerLoop
  have he : innerLoopF ((frame m).length + 1) (frame m)
      = innerLoopF ((frame m).length + 1) (frame m ++ []) := by simp
  rw [he, innerLoopF_frame hwf _ [], if_neg (by simp [hm])]

/-- Partial-frame tolerance: a frame split at any nonzero offset across two
successive `recv` chunks still decodes to the original message. -/
theorem receive_two_chunks (m : Json) (hwf : jwf m = true) (hm : isHeartbeat m = false)
    (c1 c2 : List Char) (hsplit : c1 ++ c2 = frame m) (hne : c1 ≠ []) :
    receive_full_response [c1, c2] = .ok m := by
  unfold receive_full_response
  by_cases hc2 : c2 = []
  · subst hc2
    rw [List.append_nil] at hsplit
    subst hsplit
    simp only [recvGo, if_neg hne, List.nil_append, innerLoop_frame hwf hm]
  · have hlen : c1.length ≤ (dumps m).length := by
      have h1 : c1.length + c2.length = (frame m).length := by
        rw [← hsplit]; simp
      have h2 : (frame m).length = (dumps m).length + 1 := by simp [frame]
      have h3 : 1 ≤ c2.length := by
        cases c2 with
        | nil => exact absurd rfl hc2
        | cons a b => simp
      omega
    have hc1take : c1 = (dumps m).take c1.length := by
      have h1 : c1 = (c1 ++ c2).take c1.length := by simp
      rw [hsplit] at h1
      have h2 : (frame m).take c1.length = (dumps m).take c1.length := by
        have hfr : frame m = dumps m ++ ['\n'] := rfl
        rw [hfr, List.take_append_of_le_length hlen]
      rw [h2] at h1
      exact h1
    have hnl : '\n' ∉ c1 := by
      intro h
      rw [hc1take] at h
      exact dumps_no_nl m (List.take_subset _ _ h)
    have hinner1 : innerLoop c1 = .needMore c1 := by
      unfold innerLoop
      simp only [innerLoopF, splitFirstNL_no_nl hnl]
    simp only [recvGo, if_neg hne, if_neg hc2, List.nil_append, hinner1,
      hsplit, innerLoop_frame hwf hm]

/-! ## Send-path helper lemmas -/

theorem sendExcept_state (s : Session) (cmd : List Char) (track : Bool) (t : Nat)
    (msg : List Char) :
    (sendExcept s cmd track t msg).1 = some (errObj msg)
    ∧ (sendExcept s cmd track t msg).2.connected = false
    ∧ (sendExcept s cmd track t msg).2.socket = none := by
  cases track <;> simp [sendExcept]

theorem connect_inv (s : Session) (ok : Bool) (h : sessionInv s) :
    sessionInv (connect s ok).2 := by
  unfold connect
  split_ifs
  · exact h
  · simp [sessionInv]
  · simp [sessionInv]

theorem sendBody_inv (s : Session) (cmd : List Char) (track : Bool) (w : World)
    (h : sessionInv s) : sessionInv (sendBody s cmd track w).2 := by
  unfold sendBody
  cases exchangeOutcome w with
  | error msg => cases track <;> simp [sendExcept, sessionInv]
  | ok r =>
    cases r with
    | null => cases track <;> simp [sendExcept, sessionInv]
    | bool b => cases track <;> simp [sendExcept, sessionInv]
    | num n => cases track <;> simp [sendExcept, sessionInv]
    | str t2 => cases track <;> simp [sendExcept, sessionInv]
    | arr xs => cases track <;> simp [sendExcept, sessionInv]
    | obj kvs =>
      cases track <;> simp only [sessionInv] <;> split_ifs <;>
        simpa [sessionInv] using h

theorem send_command_inv (s : Session) (cmd : List Char) (params : List (List Char × Json))
    (track : Bool) (w : World) (h : sessionInv s) :
    sessionInv (send_command s cmd params track w).2 := by
  unfold send_command
  by_cases hc : s.connected = true
  · rw [if_pos hc]
    exact sendBody_inv s cmd track w h
  · rw [if_neg hc]
    rcases hcon : connect s w.connectOk with ⟨ok1, s1⟩
    have hs1 : sessionInv s1 := by
      have := connect_inv s w.connectOk h
      rw [hcon] at this
      exact this
    cases ok1
    · exact hs1
    · exact sendBody_inv s1 cmd track w hs1

theorem sendBody_diag (s : Session) (cmd : List Char) (w : World) :
    (sendBody s cmd false w).2.last_command = s.last_command
    ∧ (sendBody s cmd false w).2.last_command_time = s.last_command_time
    ∧ (sendBody s cmd false w).2.last_command_result = s.last_command_result
    ∧ (sendBody s cmd false w).2.last_command_error = s.last_command_error := by
  unfold sendBody
  cases exchangeOutcome w with
  | error msg => simp [sendExcept]
  | ok r =>
    cases r with
    | null => simp [sendExcept]
    | bool b => simp [sendExcept]
    | num n => simp [sendExcept]
    | str t2 => simp [sendExcept]
    | arr xs => simp [sendExcept]
    | obj kvs => simp only [Bool.false_eq_true, if_false] <;> split_ifs <;> simp

theorem sendBody_track_diag (s : Session) (cmd : List Char) (w : World) :
    (sendBody s cmd true w).2.last_command = some cmd
    ∧ (sendBody s cmd true w).2.last_command_time = some w.time := by
  unfold sendBody
  cases exchangeOutcome w with
  | error msg => simp [sendExcept]
  | ok r =>
    cases r with
    | null => simp [sendExcept]
    | bool b => simp [sendExcept]
    | num n => simp [sendExcept]
    | str t2 => simp [sendExcept]
    | arr xs => simp [sendExcept]
    | obj kvs =>
      simp only [if_true]
      split_ifs <;> simp

theorem sendBody_track_overwrite (s s' : Session) (cmd : List Char) (w : World) :
    (sendBody s cmd true w).2.last_command_result
      = (sendBody s' cmd true w).2.last_command_result
    ∧ (sendBody s cmd true w).2.last_command_error
      = (sendBody s' cmd true w).2.last_command_error := by
  unfold sendBody
  cases exchangeOutcome w with
  | error msg => simp [sendExcept]
  | ok r =>
    cases r with
    | null => simp [sendExcept]
    | bool b => simp [sendExcept]
    | num n => simp [sendExcept]
    | str t2 => simp [sendExcept]
    | arr xs => simp [sendExcept]
    | obj kvs =>
      simp only [if_true]
      split_ifs <;> simp

/-! ## The claims -/

/-- C1.  The spec says a `send_command` call made while disconnected whose
internal `connect()` fails returns the canonical error response with a
"no connection" text.  The code cannot do this — or return anything at
all — on that path: `send_command` holds the non-reentrant `self.lock`
(acquired at line 163) when it calls `self.connect()` at line 165, and
`connect` re-acquires the same lock at line 56, blocking the thread
forever.  Lines 166-234 are unreachable while disconnected, so no error
response (and no `None`) is ever produced; the call deadlocks. -/
theorem C1_disconnected_send_deadlocks (s : Session) (cmd : List Char)
    (params : List (List Char × Json)) (track : Bool) (w : World)
    (hdis : s.connected = false) :
    send_commandL s cmd params track w = .deadlock := by
  simp [send_commandL, hdis]

theorem C1_deadlock_witness :
    send_commandL initSession ("ping".toList) [] true
        { connectOk := false, sendErr := none, chunks := [], time := 0 }
      = .deadlock :=
  C1_disconnected_send_deadlocks initSession ("ping".toList) [] true
    { connectOk := false, sendErr := none, chunks := [], time := 0 } rfl

/-- C2.  Any exception raised during the write or the read inside
`send_command` (modelled as `exchangeOutcome w = .error msg`) makes the
call return exactly `\x7b"status": "error", "error": str(e)\x7d`, with the
session left disconnected and the socket discarded. -/
theorem C2_exception_normalized (s : Session) (cmd : List Char)
    (params : List (List Char × Json)) (track : Bool) (w : World) (msg : List Char)
    (hconn : s.connected = true) (hexc : exchangeOutcome w = .error msg) :
    (send_command s cmd params track w).1 = some (errObj msg)
    ∧ (send_command s cmd params track w).2.connected = false
    ∧ (send_command s cmd params track w).2.socket = none := by
  simp only [send_command, hconn, if_true, sendBody, hexc]
  cases track <;> simp [sendExcept]

theorem C2_witness :
    (send_command { initSession with connected := true, socket := some () }
        ("ping".toList) [] true
        { connectOk := true, sendErr := some ("boom".toList), chunks := [], time := 5 }).1
      = some (errObj ("boom".toList))
    ∧ (send_command { initSession with connected := true, socket := some () }
        ("ping".toList) [] true
        { connectOk := true, sendErr := some ("boom".toList), chunks := [], time := 5 }).2.connected
      = false
    ∧ (send_command { initSession with connected := true, socket := some () }
        ("ping".toList) [] true
        { connectOk := true, sendErr := some ("boom".toList), chunks := [], time := 5 }).2.socket
      = none :=
  C2_exception_normalized _ _ [] true _ _ rfl rfl

/-- C7.  The invariant "the socket is non-null iff `connected` is true"
holds initially and is preserved by `connect`, `disconnect` and
`send_command` on every path. -/
theorem C7_session_invariant :
    sessionInv initSession
    ∧ (∀ (s : Session) (ok : Bool), sessionInv s → sessionInv (connect s ok).2)
    ∧ (∀ s : Session, sessionInv (disconnect s))
    ∧ (∀ (s : Session) (cmd : List Char) (params : List (List Char × Json))
        (track : Bool) (w : World),
        sessionInv s → sessionInv (send_command s cmd params track w).2) :=
  ⟨rfl, connect_inv, fun s => by simp [sessionInv, disconnect], send_command_inv⟩

theorem C7_witness :
    sessionInv (send_command initSession ("ping".toList) [] true
      { connectOk := true, sendErr := none, chunks := [], time := 0 }).2 :=
  C7_session_invariant.2.2.2 initSession ("ping".toList) [] true
    { connectOk := true, sendErr := none, chunks := [], time := 0 } rfl

/-- C8, counterexample.  The spec says the heartbeat loop clears
`last_heartbeat` when the ping fails.  Take a connected session whose
`sendall` raises: the ping fails — `send_command` returns the canonical
error object, not a success — yet the iteration still records the
timestamp, because `send_command` caught the exception internally, so the
`except` branch of `_loop` (the only code that clears the timestamp,
line 253) cannot run. -/
theorem C8_counterexample :
    ∃ s2, heartbeatIteration { initSession with connected := true, socket := some () }
        { connectOk := true, sendErr := some ("boom".toList), chunks := [], time := 7 }
      = some s2
    ∧ s2.last_heartbeat = some 7
    ∧ (send_command { initSession with connected := true, socket := some () } kPing [] false
        { connectOk := true, sendErr := some ("boom".toList), chunks := [], time := 7 }).1
      = some (errObj ("boom".toList)) :=
  ⟨_, rfl, rfl, rfl⟩

/-- C8, amended.  A heartbeat iteration on a connected session always
completes and records the timestamp — ping failure included, since
`send_command` never raises — and changes `connected` only to whatever
the shared send path set it to; an iteration on a disconnected session
hangs inside `send_command`'s re-entrant lock acquisition and never
completes, so it never records (and never clears) anything. -/
theorem C8_heartbeat_records_or_hangs (s : Session) (w : World) :
    (s.connected = true →
      ∃ s2, heartbeatIteration s w = some s2
        ∧ s2.last_heartbeat = some w.time
        ∧ s2.connected = (send_command s kPing [] false w).2.connected)
    ∧ (s.connected = false → heartbeatIteration s w = none) := by
  constructor
  · intro hc
    refine ⟨{ (send_command s kPing [] false w).2 with last_heartbeat := some w.time },
      ?_, rfl, rfl⟩
    simp [heartbeatIteration, hc]
  · intro hc
    simp [heartbeatIteration, hc]

theorem C8_witness :
    ∃ s2, heartbeatIteration { initSession with connected := true, socket := some () }
        { connectOk := true, sendErr := none, chunks := [], time := 3 }
      = some s2
    ∧ s2.last_heartbeat = some 3
    ∧ s2.connected = (send_command { initSession with connected := true, socket := some () }
        kPing [] false { connectOk := true, sendErr := none, chunks := [], time := 3 }).2.connected :=
  (C8_heartbeat_records_or_hangs { initSession with connected := true, socket := some () }
    { connectOk := true, sendErr := none, chunks := [], time := 3 }).1 rfl

/-- C9.  Over the calls that complete (the session is connected; a
disconnected call deadlocks in `connect` and never returns): with
`track = false` all four last-command diagnostic fields are left
unchanged on every path, and with `track = true` every path overwrites
them — the command name and timestamp with this call's, and the
result/error fields with values determined by the call's outcome alone,
independent of their prior contents. -/
theorem C9_tracking (s : Session) (cmd : List Char) (params : List (List Char × Json))
    (w : World) (hc : s.connected = true) :
    ((send_command s cmd params false w).2.last_command = s.last_command
      ∧ (send_command s cmd params false w).2.last_command_time = s.last_command_time
      ∧ (send_command s cmd params false w).2.last_command_result = s.last_command_result
      ∧ (send_command s cmd params false w).2.last_command_error = s.last_command_error)
    ∧ ((send_command s cmd params true w).2.last_command = some cmd
      ∧ (send_command s cmd params true w).2.last_command_time = some w.time
      ∧ ∀ s' : Session, s'.connected = true →
          (send_command s' cmd params true w).2.last_command_result
            = (send_command s cmd params true w).2.last_command_result
          ∧ (send_command s' cmd params true w).2.last_command_error
            = (send_command s cmd params true w).2.last_command_error) := by
  have hsc : ∀ (s0 : Session) (tr : Bool), s0.connected = true →
      send_command s0 cmd params tr w = sendBody s0 cmd tr w := by
    intro s0 tr h0
    simp [send_command, h0]
  rw [hsc s false hc, hsc s true hc]
  obtain ⟨t1, t2⟩ := sendBody_track_diag s cmd w
  refine ⟨sendBody_diag s cmd w, t1, t2, ?_⟩
  intro s' h'
  rw [hsc s' true h']
  exact sendBody_track_overwrite s' s cmd w

theorem C9_witness :
    (send_command { initSession with connected := true, socket := some () } ("c".toList) [] true
        { connectOk := true, sendErr := none, chunks := [], time := 2 }).2.last_command
      = some ("c".toList) :=
  (C9_tracking { initSession with connected := true, socket := some () } ("c".toList) []
    { connectOk := true, sendErr := none, chunks := [], time := 2 } rfl).2.1

/-- C4.  `encode` produces the text of the single JSON object
`\x7b"command": command, "params": params\x7d` followed by exactly one
newline, and feeding those bytes to `receive_full_response` yields back
the original command object, hence the original command and params. -/
theorem C4_framing_roundtrip (cmd : List Char) (params : List (List Char × Json))
    (hwf : jwf (Json.obj params) = true) :
    encode cmd params
      = dumps (Json.obj [(kCommand, Json.str cmd), (kParams, Json.obj params)]) ++ ['\n']
    ∧ (encode cmd params).count '\n' = 1
    ∧ receive_full_response [encode cmd params]
      = .ok (Json.obj [(kCommand, Json.str cmd), (kParams, Json.obj params)]) := by
  have hM : jwf (Json.obj [(kCommand, Json.str cmd), (kParams, Json.obj params)])
      = (nodupKeys [kCommand, kParams]
          && (jwf (Json.str cmd) && (jwf (Json.obj params) && true))) := rfl
  have hwfM : jwf (Json.obj [(kCommand, Json.str cmd), (kParams, Json.obj params)]) = true := by
    rw [hM, hwf]
    rw [show jwf (Json.str cmd) = true from rfl]
    decide
  refine ⟨rfl, ?_, ?_⟩
  · show (dumps (Json.obj [(kCommand, Json.str cmd), (kParams, Json.obj params)])
        ++ ['\n']).count '\n' = 1
    rw [List.count_append, List.count_eq_zero_of_not_mem (dumps_no_nl _)]
    rfl
  · show receive_full_response
        [frame (Json.obj [(kCommand, Json.str cmd), (kParams, Json.obj params)])]
      = .ok (Json.obj [(kCommand, Json.str cmd), (kParams, Json.obj params)])
    exact receive_single _ hwfM rfl

theorem C4_witness :
    encode ("ping".toList) []
      = dumps (Json.obj [(kCommand, Json.str ("ping".toList)), (kParams, Json.obj [])]) ++ ['\n']
    ∧ (encode ("ping".toList) []).count '\n' = 1
    ∧ receive_full_response [encode ("ping".toList) []]
      = .ok (Json.obj [(kCommand, Json.str ("ping".toList)), (kParams, Json.obj [])]) :=
  C4_framing_roundtrip ("ping".toList) [] rfl

/-- C5.  Heartbeat transparency: a reply stream of any number of framed
heartbeat messages followed by one framed non-heartbeat response makes
`receive_full_response` return exactly that response; no heartbeat is ever
returned. -/
theorem C5_heartbeat_transparency (hbs : List Json) (r : Json)
    (hh : ∀ h ∈ hbs, jwf h = true ∧ isHeartbeat h = true)
    (hwr : jwf r = true) (hr : isHeartbeat r = false) :
    receive_full_response [(hbs.map frame).join ++ frame r] = .ok r :=
  receive_heartbeats hbs r hh hwr hr

theorem C5_witness :
    receive_full_response
        [([Json.obj [(kType, Json.str kHeartbeat)]].map frame).join
          ++ frame (Json.obj [(kStatus, Json.str ("ok".toList))])]
      = .ok (Json.obj [(kStatus, Json.str ("ok".toList))]) :=
  C5_heartbeat_transparency [Json.obj [(kType, Json.str kHeartbeat)]]
    (Json.obj [(kStatus, Json.str ("ok".toList))])
    (by intro h hmem; simp at hmem; subst hmem; exact ⟨rfl, rfl⟩) rfl rfl

/-- C6.  Partial-frame tolerance: an encoded message split at any nonzero
byte offset across two successive reads still decodes to the original
message once both chunks have arrived. -/
theorem C6_partial_frame_tolerance (m : Json) (n : Nat) (hwf : jwf m = true)
    (hm : isHeartbeat m = false) (hn : 1 ≤ n) :
    receive_full_response [(frame m).take n, (frame m).drop n] = .ok m := by
  apply receive_two_chunks m hwf hm _ _ (List.take_append_drop n (frame m))
  have h1 : ((frame m).take n).length = min n (frame m).length := List.length_take _ _
  intro h
  rw [h] at h1
  have h2 := frame_len_pos m
  simp only [List.length_nil] at h1
  omega

theorem C6_witness :
    receive_full_response [(frame Json.null).take 2, (frame Json.null).drop 2]
      = .ok Json.null :=
  C6_partial_frame_tolerance Json.null 2 rfl rfl (by decide)

/-- C3.  Error shape convergence: a peer reply
`\x7b"status":"error","error":"X"\x7d` and a peer reply
`\x7b"success":false,"message":"X"\x7d` both make `send_command` return
the canonical `\x7b"status":"error","error":"X"\x7d` response. -/
theorem C3_error_shape_convergence (s : Session) (cmd X : List Char)
    (params : List (List Char × Json)) (track : Bool) (t : Nat)
    (hconn : s.connected = true) :
    (send_command s cmd params track
        { connectOk := true, sendErr := none,
          chunks := [frame (Json.obj [(kStatus, Json.str kErrorVal), (kError, Json.str X)])],
          time := t }).1
      = some (Json.obj [(kStatus, Json.str kErrorVal), (kError, Json.str X)])
    ∧ (send_command s cmd params track
        { connectOk := true, sendErr := none,
          chunks := [frame (Json.obj [(kSuccess, Json.bool false), (kMessage, Json.str X)])],
          time := t }).1
      = some (Json.obj [(kStatus, Json.str kErrorVal), (kError, Json.str X)]) := by
  constructor
  · have hwfA : jwf (Json.obj [(kStatus, Json.str kErrorVal), (kError, Json.str X)]) = true := rfl
    have hrecv := receive_single (Json.obj [(kStatus, Json.str kErrorVal), (kError, Json.str X)])
      hwfA rfl
    have hout : exchangeOutcome
        { connectOk := true, sendErr := none,
          chunks := [frame (Json.obj [(kStatus, Json.str kErrorVal), (kError, Json.str X)])],
          time := t }
        = .ok (Json.obj [(kStatus, Json.str kErrorVal), (kError, Json.str X)]) := by
      simp [exchangeOutcome, hrecv]
    have hs : statusIsError [(kStatus, Json.str kErrorVal), (kError, Json.str X)] = true := rfl
    have ha : (alookup [(kStatus, Json.str kErrorVal), (kError, Json.str X)] kError).isSome
        = true := rfl
    simp only [send_command, hconn, if_true, sendBody, hout, hs, ha]
  · have hwfB : jwf (Json.obj [(kSuccess, Json.bool false), (kMessage, Json.str X)]) = true := rfl
    have hrecv := receive_single (Json.obj [(kSuccess, Json.bool false), (kMessage, Json.str X)])
      hwfB rfl
    have hout : exchangeOutcome
        { connectOk := true, sendErr := none,
          chunks := [frame (Json.obj [(kSuccess, Json.bool false), (kMessage, Json.str X)])],
          time := t }
        = .ok (Json.obj [(kSuccess, Json.bool false), (kMessage, Json.str X)]) := by
      simp [exchangeOutcome, hrecv]
    have hs2 : statusIsError [(kSuccess, Json.bool false), (kMessage, Json.str X)] = false := rfl
    have hsu : successIsFalse [(kSuccess, Json.bool false), (kMessage, Json.str X)] = true := rfl
    have hem : errMsgOf [(kSuccess, Json.bool false), (kMessage, Json.str X)] = Json.str X := rfl
    simp only [send_command, hconn, if_true, sendBody, hout, hs2, hsu, hem]
    cases track <;> simp

theorem C3_witness :
    (send_command { initSession with connected := true, socket := some () } ("c".toList) [] true
        { connectOk := true, sendErr := none,
          chunks := [frame (Json.obj [(kStatus, Json.str kErrorVal),
            (kError, Json.str ("boom".toList))])], time := 1 }).1
      = some (Json.obj [(kStatus, Json.str kErrorVal), (kError, Json.str ("boom".toList))])
    ∧ (send_command { initSession with connected := true, socket := some () } ("c".toList) [] true
        { connectOk := true, sendErr := none,
          chunks := [frame (Json.obj [(kSuccess, Json.bool false),
            (kMessage, Json.str ("boom".toList))])], time := 1 }).1
      = some (Json.obj [(kStatus, Json.str kErrorVal), (kError, Json.str ("boom".toList))]) :=
  C3_error_shape_convergence _ _ _ [] true 1 rfl

/-- C10.  A valid JSON reply that is not a dict is never returned as the
response: the `.get` call on it raises, so `send_command` returns the
canonical error shape (with the AttributeError description as the error
text) and the session is left disconnected with the socket discarded. -/
theorem C10_nondict_reply (s : Session) (cmd : List Char) (params : List (List Char × Json))
    (track : Bool) (r : Json) (t : Nat)
    (hconn : s.connected = true) (hwr : jwf r = true) (hobj : r.isObj = false) :
    (send_command s cmd params track
        { connectOk := true, sendErr := none, chunks := [frame r], time := t }).1
      = some (errObj (noGetMsg r))
    ∧ (send_command s cmd params track
        { connectOk := true, sendErr := none, chunks := [frame r], time := t }).1 ≠ some r
    ∧ (send_command s cmd params track
        { connectOk := true, sendErr := none, chunks := [frame r], time := t }).2.connected = false
    ∧ (send_command s cmd params track
        { connectOk := true, sendErr := none, chunks := [frame r], time := t }).2.socket
      = none := by
  have hhb : isHeartbeat r = false := by
    cases r <;> first | rfl | (simp [Json.isObj] at hobj)
  have hrecv := receive_single r hwr hhb
  have hout : exchangeOutcome { connectOk := true, sendErr := none, chunks := [frame r], time := t }
      = .ok r := by simp [exchangeOutcome, hrecv]
  have hmain : send_command s cmd params track
        { connectOk := true, sendErr := none, chunks := [frame r], time := t }
      = sendExcept (if track then { s with last_command := some cmd, last_command_time := some t, last_command_result := some r, last_command_error := none } else s)
          cmd track t (noGetMsg r) := by
    simp only [send_command, hconn, if_true, sendBody, hout]
    cases r with
    | obj kvs => simp [Json.isObj] at hobj
    | null => rfl
    | bool b => rfl
    | num n => rfl
    | str t2 => rfl
    | arr xs => rfl
  rw [hmain]
  obtain ⟨h1, h2, h3⟩ := sendExcept_state _ cmd track t (noGetMsg r)
  refine ⟨h1, ?_, h2, h3⟩
  rw [h1]
  intro hcontra
  have h4 := Option.some.inj hcontra
  cases r with
  | obj kvs => simp [Json.isObj] at hobj
  | null => exact Json.noConfusion h4
  | bool b => exact Json.noConfusion h4
  | num n => exact Json.noConfusion h4
  | str t2 => exact Json.noConfusion h4
  | arr xs => exact Json.noConfusion h4

theorem C10_witness :
    (send_command { initSession with connected := true, socket := some () } ("c".toList) [] true
        { connectOk := true, sendErr := none, chunks := [frame (Json.num 5)], time := 0 }).1
      = some (errObj (noGetMsg (Json.num 5)))
    ∧ (send_command { initSession with connected := true, socket := some () } ("c".toList) [] true
        { connectOk := true, sendErr := none, chunks := [frame (Json.num 5)], time := 0 }).1
      ≠ some (Json.num 5)
    ∧ (send_command { initSession with connected := true, socket := some () } ("c".toList) [] true
        { connectOk := true, sendErr := none, chunks := [frame (Json.num 5)], time := 0 }).2.connected
      = false
    ∧ (send_command { initSession with connected := true, socket := some () } ("c".toList) [] true
        { connectOk := true, sendErr := none, chunks := [frame (Json.num 5)], time := 0 }).2.socket
      = none :=
  C10_nondict_reply _ _ [] true (Json.num 5) 0 rfl rfl rfl
